import Mathlib

/-!
# Verification of the Sales_Enquiry_Management synchronization core

Shallow embedding of the repository's data-synchronization code:

* `src/services/mockDb.ts` — the offline-capable `DatabaseService`
  (namespace `MockDb` below): optimistic local writes, demotion to
  offline mode on remote failure, local persistence, attachment upload
  with swallowed per-file failures, `ensureSuperAdmin`, `init`.
* `src/unnamed/part_001` — the online-only `DatabaseService` variant
  (namespace `OnlineDb`): remote-first writes that throw on failure,
  strict attachment uploads, observer `subscribe`/deregistration.
* `src/services/mailService.ts` — the `MailService` envelope codec
  (AES over `JSON.stringify`), recipient resolution in `broadcastData`,
  and `fetchLatestData`.
* `src/unnamed/part_000` / `src/unnamed/part_002` — the `App.login`
  authentication flow over the synced organization/user collections.

Remote collaborators (the document store, blob storage, the Gmail API)
and JavaScript built-ins (`JSON`, `crypto-js`) are not part of the
repository; their outcomes enter as explicit parameters (`RemoteEnv`,
cipher function pairs) or as a concrete executable model (`JVal` for the
JSON fragment the application serializes).  JavaScript numbers are
modeled as integers (`Int`); floating-point values are outside the
decidable fragment treated here.
-/

/-! ## Data model (`src/types.ts`) -/

/-- `UserRole` from `src/types.ts`. -/
inductive UserRole where
  | SUPER_ADMIN
  | ORG_ADMIN
  | RSM
  | SALES_ENG
  | DEALER
  | DSE
deriving DecidableEq, Repr

/-- `Organization` from `src/types.ts`. -/
structure Organization where
  id : String
  name : String
  adminEmail : String
  isApproved : Bool
  createdAt : String
deriving DecidableEq, Repr

/-- `UserHierarchy` from `src/types.ts`: optional manager email and
subordinate email lists per tier. -/
structure UserHierarchy where
  rsmEmail : Option String := none
  seEmails : Option (List String) := none
  dealerEmails : Option (List String) := none
  dseEmails : Option (List String) := none
deriving DecidableEq, Repr

/-- `User` from `src/types.ts`. -/
structure User where
  id : String
  email : String
  name : String
  password : Option String := none
  parentId : Option String := none
  role : UserRole
  organizationId : String
  organizationName : String
  isApproved : Bool
  hierarchy : Option UserHierarchy := none
deriving DecidableEq, Repr

/-- A named competitor/share pair inside `Customer` (share: JS number,
modeled as `Int`). -/
structure CompetitorShare where
  name : String
  share : Int
deriving DecidableEq, Repr

/-- `Customer` from `src/types.ts` (numeric fields modeled as `Int`). -/
structure Customer where
  id : String
  createdBy : String
  organizationId : String
  name : String
  address : String
  pinCode : String
  contactPerson : String
  contactNumber : String
  businessSector : String
  tungaloyShare : Int
  annualPotential : Int
  competitors : List CompetitorShare
  fyPlan : String
deriving DecidableEq, Repr

/-- `PlanType` from `src/types.ts`. -/
inductive PlanType where
  | NEW_PROJECT
  | CONVERSION
  | RETENTION
deriving DecidableEq, Repr

/-- `Attachment` from `src/types.ts`; `data` is a base64 payload or a
remote URL. The `type` discriminator (photo/document) never influences
the synchronization logic and is kept as a plain string. -/
structure Attachment where
  name : String
  data : String
  kind : String
deriving DecidableEq, Repr

/-- `AnyPlan` from `src/types.ts`, restricted to the `BasePlan` fields
the synchronization core reads (`id`, `attachments`); the remaining
commercial/technical attributes of the three variants are opaque to
every verified operation and are carried as the shared core fields. -/
structure Plan where
  id : String
  planType : PlanType
  customerId : String
  organizationId : String
  projectName : String
  status : String
  createdAt : String
  createdBy : String
  valueLakhs : Int
  attachments : Option (List Attachment) := none
deriving DecidableEq, Repr

/-- The `AppData` snapshot held by both `DatabaseService` variants. -/
structure AppData where
  organizations : List Organization
  users : List User
  customers : List Customer
  plans : List Plan
deriving DecidableEq, Repr

/-- `INITIAL_DATA` from `src/services/mockDb.ts`. -/
def INITIAL_DATA : AppData :=
  { organizations := [], users := [], customers := [], plans := [] }

/-! ## Structural models of the JavaScript string operations

Lean's `String.startsWith`, `String.contains`, `String.toLower` and
`String.trim` are iterator-based and do not reduce inside the kernel;
the embedding uses equivalent structural char-list definitions for the
JS operations `startsWith`, `includes('@')`, `toLowerCase` and
`trim`. -/

/-- JS `s.startsWith(pre)`. -/
def strStartsWith (s pre : String) : Bool := pre.data.isPrefixOf s.data

/-- JS whitespace for `trim` (space, tab, newline, carriage return). -/
def isWsChar (c : Char) : Bool := c = ' ' || c = '\t' || c = '\n' || c = '\r'

/-- JS `s.trim()`. -/
def trimStr (s : String) : String :=
  String.mk (((s.data.dropWhile isWsChar).reverse.dropWhile isWsChar).reverse)

/-- JS `s.toLowerCase()` (ASCII range). -/
def toLowerStr (s : String) : String := String.mk (s.data.map Char.toLower)

/-! ## Remote-environment model

The Firestore document store and the blob-storage collaborator are
external; a `RemoteEnv` records the outcome the environment would give
to each remote call made during one write operation. -/

/-- Outcomes supplied by the remote collaborators during one write:
whether the `setDoc`/`updateDoc` record commit succeeds, and for each
uploaded attachment either the durable URL returned by
`getDownloadURL` or `none` when `uploadString` fails. -/
structure RemoteEnv where
  commitOk : Bool
  uploadResult : Attachment → Option String

/-- Observable effects of one write operation, in program order:
mutation of the in-memory collections, persistence of the snapshot to
device storage, and the attempt/outcome of the remote record commit. -/
inductive Effect where
  | localMutate
  | saveLocal
  | commitAttempt
  | commitOk
  | commitFail
deriving DecidableEq, Repr

/-- `true` iff no `localMutate` occurs before the first `commitAttempt`
of the trace (the collections are not touched until the remote write
has at least been attempted). -/
def noMutateBeforeAttempt : List Effect → Bool
  | [] => true
  | .commitAttempt :: _ => true
  | .localMutate :: _ => false
  | _ :: tr => noMutateBeforeAttempt tr

/-- `true` iff no `localMutate` occurs before the first `commitOk` of
the trace (the collections are mutated only after a successful remote
commit). -/
def noMutateBeforeSuccess : List Effect → Bool
  | [] => true
  | .commitOk :: _ => true
  | .localMutate :: _ => false
  | _ :: tr => noMutateBeforeSuccess tr

/-! ## The offline-capable `DatabaseService` (`src/services/mockDb.ts`) -/

namespace MockDb

/-- State of the `DatabaseService` in `src/services/mockDb.ts`: the
in-memory `AppData`, the `initialized` and `isOffline` flags, and the
`sales_tracker_offline_data` device-storage slot (modeled as the parsed
snapshot; `none` = absent). -/
structure DbState where
  data : AppData
  initialized : Bool := false
  isOffline : Bool := false
  localStore : Option AppData := none
deriving DecidableEq, Repr

/-- `saveToLocal`: persists the snapshot to device storage, but only in
offline mode (`if (this.isOffline) localStorage.setItem(...)`); the
swallowed `setItem` exception path stores nothing and is covered by the
identity branch. -/
def saveToLocal (s : DbState) : DbState :=
  if s.isOffline then { s with localStore := some s.data } else s

/-- Per-file body of the `uploadAttachments` loop: URL-form attachments
(`file.data.startsWith('http')`) pass through; otherwise the file is
uploaded and its payload replaced by the returned URL, and on upload
failure the original file is kept (`catch { uploaded.push(file) }`). -/
def uploadOne (env : RemoteEnv) (file : Attachment) : Attachment :=
  if strStartsWith file.data "http" then file
  else
    match env.uploadResult file with
    | some url => { file with data := url }
    | none => file

/-- `uploadAttachments` of `src/services/mockDb.ts`: empty or missing
lists yield `[]`; in offline mode the attachments are returned inline
unchanged; otherwise each file goes through `uploadOne`. -/
def uploadAttachments (env : RemoteEnv) (offline : Bool) :
    Option (List Attachment) → List Attachment
  | none => []
  | some atts =>
      if atts.isEmpty then []
      else if offline then atts
      else atts.map (uploadOne env)

/-- A write request against the `DatabaseService`. Partial-update
payloads (`Partial<T>` merged via `{...old, ...updates}`) are modeled
as endofunctions on the record; for plans the optional `attachments`
member of the partial payload is split out because `updatePlan`
re-uploads it before merging. -/
inductive WriteOp where
  | addOrganization (org : Organization)
  | updateOrganization (id : String) (updates : Organization → Organization)
  | addUser (user : User)
  | updateUser (userId : String) (updates : User → User)
  | addCustomer (customer : Customer)
  | addPlan (plan : Plan)
  | updatePlan (planId : String) (updAttachments : Option (List Attachment))
      (updates : Plan → Plan)

/-- Shared tail of every write method in `src/services/mockDb.ts`: the
local mutation has already been applied to `s1`; offline mode persists
locally, otherwise the remote commit is attempted and a failure demotes
to offline mode and persists locally. -/
def finishWrite (env : RemoteEnv) (s1 : DbState) : DbState × List Effect :=
  if s1.isOffline then
    (saveToLocal s1, [.localMutate, .saveLocal])
  else if env.commitOk then
    (s1, [.localMutate, .commitAttempt, .commitOk])
  else
    (saveToLocal { s1 with isOffline := true },
     [.localMutate, .commitAttempt, .commitFail, .saveLocal])

/-- The seven write methods of `src/services/mockDb.ts`. Each first
mutates the in-memory collection (`push` / `map`), then runs the
offline/online branch (`finishWrite`). `addPlan` and `updatePlan`
process attachments through `uploadAttachments` before mutating. -/
def applyWrite (op : WriteOp) (env : RemoteEnv) (s : DbState) :
    DbState × List Effect :=
  match op with
  | .addOrganization org =>
      finishWrite env
        { s with data := { s.data with organizations := s.data.organizations ++ [org] } }
  | .updateOrganization id upd =>
      let orgs := s.data.organizations.map (fun o => if o.id = id then upd o else o)
      finishWrite env { s with data := { s.data with organizations := orgs } }
  | .addUser user =>
      finishWrite env
        { s with data := { s.data with users := s.data.users ++ [user] } }
  | .updateUser userId upd =>
      let users := s.data.users.map (fun u => if u.id = userId then upd u else u)
      finishWrite env { s with data := { s.data with users := users } }
  | .addCustomer customer =>
      finishWrite env
        { s with data := { s.data with customers := s.data.customers ++ [customer] } }
  | .addPlan plan =>
      let planToSave :=
        { plan with attachments := some (uploadAttachments env s.isOffline plan.attachments) }
      finishWrite env
        { s with data := { s.data with plans := s.data.plans ++ [planToSave] } }
  | .updatePlan planId updAtts upd =>
      let processed : Option (List Attachment) :=
        match updAtts with
        | some atts => some (uploadAttachments env s.isOffline (some atts))
        | none => none
      let merge : Plan → Plan := fun p =>
        let p1 := upd p
        match processed with
        | some atts => { p1 with attachments := some atts }
        | none => p1
      let plans := s.data.plans.map (fun p => if p.id = planId then merge p else p)
      finishWrite env { s with data := { s.data with plans := plans } }

end MockDb

namespace MockDb

/-- The two hard-coded super-admin emails of `ensureSuperAdmin`. -/
def superEmail : String := "keerthithiruvarasan@gmail.com"

/-- The alternative (misspelled) hard-coded super-admin email. -/
def altEmail : String := "keerthithiruvarsan@gmail.com"

/-- The bootstrap record pushed by `ensureSuperAdmin` when no matching
user exists. -/
def bootstrapSuperAdmin : User :=
  { id := "super_admin_session"
    name := "Keerthi (Super Admin)"
    email := superEmail
    password := some "123456789@Asdf"
    role := .SUPER_ADMIN
    organizationId := "system_global"
    organizationName := "System"
    isApproved := true }

/-- The existence check of `ensureSuperAdmin`: a user with one of the
two hard-coded emails **and** role `SUPER_ADMIN` (the `isApproved`
flag is not inspected). -/
def hasSuperAdmin (users : List User) : Bool :=
  users.any (fun u =>
    (u.email == superEmail || u.email == altEmail) && u.role == UserRole.SUPER_ADMIN)

/-- `ensureSuperAdmin` of `src/services/mockDb.ts`: pushes the
bootstrap super-admin unless a matching user already exists. -/
def ensureSuperAdmin (users : List User) : List User :=
  if hasSuperAdmin users then users else users ++ [bootstrapSuperAdmin]

/-- `loadFromLocal` of `src/services/mockDb.ts`: installs the parsed
device snapshot when present; an absent or corrupt snapshot falls back
to `seedOfflineData` (empty collections, persisted back to storage).
`local` is the device slot: `none` covers both the missing-key and the
corrupt-JSON paths. -/
def loadFromLocal (stLocal : Option AppData) (s : DbState) : DbState :=
  match stLocal with
  | some d => { s with data := d }
  | none => saveToLocal { s with data := INITIAL_DATA }

/-- `init` of `src/services/mockDb.ts`. `configPresent` is whether a
Firebase configuration object was found; `cloud` is the outcome of the
bulk `getDocs` load (`none` = the fetch threw); `stLocal` is the device
snapshot. Missing config forces offline mode and a local load; a
successful cloud load installs the fetched collections in online mode;
a failed cloud load demotes to offline mode and loads locally. Every
path ends by setting `initialized` and running `ensureSuperAdmin`. -/
def init (configPresent : Bool) (cloud : Option AppData)
    (stLocal : Option AppData) (s : DbState) : DbState :=
  if s.initialized then s
  else
    let s1 :=
      if ¬configPresent then
        loadFromLocal stLocal { s with isOffline := true }
      else
        match cloud with
        | some d => { s with data := d, isOffline := false }
        | none => loadFromLocal stLocal { s with isOffline := true }
    let s2 := { s1 with initialized := true }
    { s2 with data := { s2.data with users := ensureSuperAdmin s2.data.users } }

end MockDb

/-! ## The online-only `DatabaseService` (`src/unnamed/part_001`) -/

namespace OnlineDb

/-- State of the online-only `DatabaseService` variant: the in-memory
`AppData` and the `isOnline` flag (there is no device persistence in
this variant). -/
structure DbState where
  data : AppData
  isOnline : Bool := true
deriving DecidableEq, Repr

/-- The upload loop of `uploadAttachments` in `src/unnamed/part_001`:
a URL-form attachment passes through; an uploaded file's payload is
replaced by the returned URL; an upload failure is re-thrown
(`throw e; // Fail hard on upload error`). -/
def uploadLoop (env : RemoteEnv) : List Attachment → Except Unit (List Attachment)
  | [] => .ok []
  | file :: rest =>
      if strStartsWith file.data "http" then
        (uploadLoop env rest).map (fun tl => file :: tl)
      else
        match env.uploadResult file with
        | some url => (uploadLoop env rest).map (fun tl => { file with data := url } :: tl)
        | none => .error ()

/-- `uploadAttachments` of `src/unnamed/part_001`: empty or missing
lists yield `[]`; offline mode throws (`Cannot upload files while
offline`); otherwise the files run through `uploadLoop`. -/
def uploadAttachments (env : RemoteEnv) (online : Bool) :
    Option (List Attachment) → Except Unit (List Attachment)
  | none => .ok []
  | some atts =>
      if atts.isEmpty then .ok []
      else if ¬online then .error ()
      else uploadLoop env atts

/-- The seven write methods of `src/unnamed/part_001`: the remote
commit comes first (`await setDoc`/`await updateDoc`) and the local
collection is mutated only when it succeeded; a thrown remote failure
propagates (`Except.error`) with the state untouched. `addPlan` and
`updatePlan` run `uploadAttachments` before the commit. The returned
trace lists the observable effects in program order. -/
def applyWrite (op : MockDb.WriteOp) (env : RemoteEnv) (s : DbState) :
    Except Unit DbState × List Effect :=
  match op with
  | .addOrganization org =>
      if env.commitOk then
        (.ok { s with data := { s.data with organizations := s.data.organizations ++ [org] } },
         [.commitAttempt, .commitOk, .localMutate])
      else (.error (), [.commitAttempt, .commitFail])
  | .updateOrganization id upd =>
      if env.commitOk then
        let orgs := s.data.organizations.map (fun o => if o.id = id then upd o else o)
        (.ok { s with data := { s.data with organizations := orgs } },
         [.commitAttempt, .commitOk, .localMutate])
      else (.error (), [.commitAttempt, .commitFail])
  | .addUser user =>
      if env.commitOk then
        (.ok { s with data := { s.data with users := s.data.users ++ [user] } },
         [.commitAttempt, .commitOk, .localMutate])
      else (.error (), [.commitAttempt, .commitFail])
  | .updateUser userId upd =>
      if env.commitOk then
        let users := s.data.users.map (fun u => if u.id = userId then upd u else u)
        (.ok { s with data := { s.data with users := users } },
         [.commitAttempt, .commitOk, .localMutate])
      else (.error (), [.commitAttempt, .commitFail])
  | .addCustomer customer =>
      if env.commitOk then
        (.ok { s with data := { s.data with customers := s.data.customers ++ [customer] } },
         [.commitAttempt, .commitOk, .localMutate])
      else (.error (), [.commitAttempt, .commitFail])
  | .addPlan plan =>
      match uploadAttachments env s.isOnline plan.attachments with
      | .error e => (.error e, [])
      | .ok processed =>
          let planToSave := { plan with attachments := some processed }
          if env.commitOk then
            (.ok { s with data := { s.data with plans := s.data.plans ++ [planToSave] } },
             [.commitAttempt, .commitOk, .localMutate])
          else (.error (), [.commitAttempt, .commitFail])
  | .updatePlan planId updAtts upd =>
      let processedE : Except Unit (Option (List Attachment)) :=
        match updAtts with
        | some atts => (uploadAttachments env s.isOnline (some atts)).map some
        | none => .ok none
      match processedE with
      | .error e => (.error e, [])
      | .ok processed =>
          let merge : Plan → Plan := fun p =>
            let p1 := upd p
            match processed with
            | some atts => { p1 with attachments := some atts }
            | none => p1
          if env.commitOk then
            let plans := s.data.plans.map (fun p => if p.id = planId then merge p else p)
            (.ok { s with data := { s.data with plans := plans } },
             [.commitAttempt, .commitOk, .localMutate])
          else (.error (), [.commitAttempt, .commitFail])

/-- A registered observer callback. Callbacks are JavaScript function
objects compared by reference in `unsubscribe`'s
`filter(cb => cb !== callback)`; reference identity is modeled by a
`Nat` token. -/
abbrev Callback := Nat

/-- The `subscribers` array of the online-only `DatabaseService`. -/
structure NotifierState where
  subscribers : List Callback := []
deriving DecidableEq, Repr

/-- `subscribe`: appends the callback to the subscriber array. -/
def subscribe (cb : Callback) (s : NotifierState) : NotifierState :=
  { s with subscribers := s.subscribers ++ [cb] }

/-- The deregistration handle returned by `subscribe`: removes every
array entry reference-equal to the callback. -/
def unsubscribe (cb : Callback) (s : NotifierState) : NotifierState :=
  { s with subscribers := s.subscribers.filter (fun c => c ≠ cb) }

/-- `notifySubscribers`: invokes every currently registered callback;
the result is the invocation list. -/
def notifySubscribers (s : NotifierState) : List Callback :=
  s.subscribers

/-- Events affecting the notifier: registering or deregistering a
callback, and the two notification sources (a collection mutation
delivered by an `onSnapshot` listener and a full snapshot
replacement), both of which call `notifySubscribers`. -/
inductive NotifierOp where
  | subscribeOp (cb : Callback)
  | unsubscribeOp (cb : Callback)
  | mutateNotify
  | snapshotNotify
deriving DecidableEq, Repr

/-- One notifier event: the new state plus the callbacks invoked. -/
def stepNotifier (op : NotifierOp) (s : NotifierState) :
    NotifierState × List Callback :=
  match op with
  | .subscribeOp cb => (subscribe cb s, [])
  | .unsubscribeOp cb => (unsubscribe cb s, [])
  | .mutateNotify => (s, notifySubscribers s)
  | .snapshotNotify => (s, notifySubscribers s)

/-- A sequence of notifier events: final state plus every callback
invocation, in order. -/
def runNotifier : List NotifierOp → NotifierState → NotifierState × List Callback
  | [], s => (s, [])
  | op :: ops, s =>
      let (s1, calls) := stepNotifier op s
      let (s2, rest) := runNotifier ops s1
      (s2, calls ++ rest)

end OnlineDb

/-! ## `App.login` (`src/unnamed/part_000`) -/

namespace App

/-- Result returned by `App.login`. -/
structure LoginResult where
  success : Bool
  message : Option String := none
deriving DecidableEq, Repr

/-- The pending-approval failure message of `App.login`. -/
def pendingMessage : String := "Organization is pending approval by Super Admin."

/-- Organization lookup of `App.login`: first organization whose name
matches the submitted name case-insensitively after trimming. -/
def findOrg (orgs : List Organization) (orgName : String) : Option Organization :=
  orgs.find? (fun o => toLowerStr o.name == toLowerStr (trimStr orgName))

/-- `App.login` from `src/unnamed/part_000`: resolves the organization
by name; rejects when it is missing, or unapproved and not the
distinguished `system_global` organization; then matches a user of
that organization by trimmed email and password, rejecting unapproved
accounts. Returns the result together with the established session
(`setUser`), `none` when no session is set. -/
def login (orgs : List Organization) (users : List User)
    (orgName email pass : String) : LoginResult × Option User :=
  let cleanEmail := trimStr email
  let cleanPass := trimStr pass
  match findOrg orgs orgName with
  | none => ({ success := false, message := some "Organization not found." }, none)
  | some org =>
      if ¬org.isApproved ∧ org.id ≠ "system_global" then
        ({ success := false, message := some pendingMessage }, none)
      else
        match users.find? (fun u =>
            u.organizationId == org.id && u.email == cleanEmail &&
            u.password == some cleanPass) with
        | some found =>
            if ¬found.isApproved then
              ({ success := false, message := some "Account locked or pending approval." }, none)
            else ({ success := true }, some found)
        | none =>
            ({ success := false,
               message := some "Invalid User ID or Password for this Organization." }, none)

end App

/-! ## A JSON value model

`MailService.encrypt` runs `JSON.stringify` before encrypting and
`MailService.decrypt` runs `JSON.parse` after decrypting; both are
JavaScript built-ins, not repository code.  `JVal` with `JVal.stringify`
and `JVal.parse` is an executable model of the fragment the application
serializes: null, booleans, integral numbers, strings, arrays and
objects.  `stringify` follows `JSON.stringify` (no whitespace, `"`
and `\` escaped, the control shortforms `\b \t \n \f \r`, other
control characters as `\u00XX`); `parse` is a strict recursive-descent
reader of exactly that grammar, returning `none` on any malformed
input. -/

/-- A JSON value (numbers restricted to integers). -/
inductive JVal where
  | jnull
  | jbool (b : Bool)
  | jint (n : Int)
  | jstr (s : String)
  | jarr (items : List JVal)
  | jobj (fields : List (String × JVal))

/-- The decimal digit character for `n < 10`. -/
def digitChar (n : Nat) : Char := Char.ofNat (48 + n)

/-- `n` is the code of a decimal digit character. -/
def isDigitCh (c : Char) : Bool := 48 ≤ c.toNat && c.toNat ≤ 57

/-- Decimal digits of `n`, most significant first. -/
def natChars (n : Nat) : List Char :=
  if _h : n < 10 then [digitChar n]
  else natChars (n / 10) ++ [digitChar (n % 10)]
termination_by n
decreasing_by exact Nat.div_lt_self (by omega) (by omega)

/-- Decimal rendering of an integer, `-` prefix for negatives. -/
def intChars (i : Int) : List Char :=
  if i < 0 then '-' :: natChars i.natAbs else natChars i.natAbs

/-- Lower-case hexadecimal digit for `n < 16`. -/
def hexDigit (n : Nat) : Char :=
  if n < 10 then digitChar n else Char.ofNat (97 + (n - 10))

/-- `JSON.stringify` escaping of one string character. -/
def escapeChar (c : Char) : List Char :=
  if c = '"' then ['\\', '"']
  else if c = '\\' then ['\\', '\\']
  else if c = '\n' then ['\\', 'n']
  else if c = '\r' then ['\\', 'r']
  else if c = '\t' then ['\\', 't']
  else if c.toNat = 8 then ['\\', 'b']
  else if c.toNat = 12 then ['\\', 'f']
  else if c.toNat < 32 then
    ['\\', 'u', '0', '0', hexDigit (c.toNat / 16), hexDigit (c.toNat % 16)]
  else [c]

/-- Escape every character of a list. -/
def escapeList : List Char → List Char
  | [] => []
  | c :: cs => escapeChar c ++ escapeList cs

/-- A rendered JSON string literal: quote, escaped body, quote. -/
def strChars (s : String) : List Char :=
  '"' :: (escapeList s.data ++ ['"'])

mutual

/-- Characters of `JSON.stringify` for a `JVal`. -/
def JVal.stringifyL : JVal → List Char
  | .jnull => ['n', 'u', 'l', 'l']
  | .jbool true => ['t', 'r', 'u', 'e']
  | .jbool false => ['f', 'a', 'l', 's', 'e']
  | .jint i => intChars i
  | .jstr s => strChars s
  | .jarr items => '[' :: (JVal.itemsL items ++ [']'])
  | .jobj fields => '{' :: (JVal.fieldsL fields ++ ['}'])

/-- Comma-separated rendering of array elements. -/
def JVal.itemsL : List JVal → List Char
  | [] => []
  | [v] => JVal.stringifyL v
  | v :: v' :: vs => JVal.stringifyL v ++ ',' :: JVal.itemsL (v' :: vs)

/-- Comma-separated rendering of object members (`"key":value`). -/
def JVal.fieldsL : List (String × JVal) → List Char
  | [] => []
  | [(k, v)] => strChars k ++ ':' :: JVal.stringifyL v
  | (k, v) :: f :: fs =>
      strChars k ++ ':' :: JVal.stringifyL v ++ ',' :: JVal.fieldsL (f :: fs)

end

/-- `JSON.stringify` model on `JVal`. -/
def JVal.stringify (j : JVal) : String := String.mk (JVal.stringifyL j)

/-- Value of a hexadecimal digit character. -/
def hexVal (c : Char) : Option Nat :=
  if 48 ≤ c.toNat ∧ c.toNat ≤ 57 then some (c.toNat - 48)
  else if 97 ≤ c.toNat ∧ c.toNat ≤ 102 then some (c.toNat - 87)
  else if 65 ≤ c.toNat ∧ c.toNat ≤ 70 then some (c.toNat - 55)
  else none

/-- One-character shortform unescapes of the JSON grammar: the three
self-representing characters quote, backslash and slash, and the five
control-character shortforms. -/
def unescapeChar (e : Char) : Option Char :=
  if e = 'n' then some '\n'
  else if e = 't' then some '\t'
  else if e = 'r' then some '\r'
  else if e = 'b' then some (Char.ofNat 8)
  else if e = 'f' then some (Char.ofNat 12)
  else if e = '"' ∨ e = '\\' ∨ e = '/' then some e
  else none

/-- Reads the body of a JSON string literal up to its closing quote.
Structural on the input; handles `\uXXXX` and the shortform escapes. -/
def parseStrBody : List Char → Option (List Char × List Char)
  | [] => none
  | c :: rest =>
      if c = '"' then some ([], rest)
      else if c = '\\' then
        match rest with
        | 'u' :: a :: b :: cc :: d :: rest' =>
            (match hexVal a, hexVal b, hexVal cc, hexVal d with
             | some va, some vb, some vc, some vd =>
                 (parseStrBody rest').map
                   (fun r => (Char.ofNat (((va * 16 + vb) * 16 + vc) * 16 + vd) :: r.1, r.2))
             | _, _, _, _ => none)
        | e :: rest' =>
            if e = 'u' then none
            else
              match unescapeChar e with
              | some ch => (parseStrBody rest').map (fun r => (ch :: r.1, r.2))
              | none => none
        | [] => none
      else (parseStrBody rest).map (fun r => (c :: r.1, r.2))

/-- Longest digit run at the head of the input. -/
def takeDigits : List Char → List Char × List Char
  | [] => ([], [])
  | c :: cs =>
      if isDigitCh c then
        let (ds, r) := takeDigits cs
        (c :: ds, r)
      else ([], c :: cs)

/-- Numeric value of a digit run. -/
def digitsVal (ds : List Char) : Nat :=
  ds.foldl (fun acc c => acc * 10 + (c.toNat - 48)) 0

/-- Reads an integer (optional minus sign, then a digit run). -/
def parseInt : List Char → Option (Int × List Char)
  | [] => none
  | c :: cs =>
      if c = '-' then
        let (ds, r) := takeDigits cs
        if ds.isEmpty then none else some (-(digitsVal ds : Int), r)
      else
        let (ds, r) := takeDigits (c :: cs)
        if ds.isEmpty then none else some ((digitsVal ds : Int), r)

mutual

/-- Strict recursive-descent reader for the `stringify` grammar; `fuel`
bounds the recursion (callers pass the input length plus one). -/
def parseV : Nat → List Char → Option (JVal × List Char)
  | 0, _ => none
  | _ + 1, [] => none
  | fuel + 1, c :: r =>
      if c = 'n' then
        match r with
        | 'u' :: 'l' :: 'l' :: r' => some (.jnull, r')
        | _ => none
      else if c = 't' then
        match r with
        | 'r' :: 'u' :: 'e' :: r' => some (.jbool true, r')
        | _ => none
      else if c = 'f' then
        match r with
        | 'a' :: 'l' :: 's' :: 'e' :: r' => some (.jbool false, r')
        | _ => none
      else if c = '"' then
        (parseStrBody r).map (fun p => (.jstr (String.mk p.1), p.2))
      else if c = '[' then
        match r with
        | ']' :: r' => some (.jarr [], r')
        | _ => (parseItems fuel r).map (fun p => (.jarr p.1, p.2))
      else if c = '{' then
        match r with
        | '}' :: r' => some (.jobj [], r')
        | _ => (parseFields fuel r).map (fun p => (.jobj p.1, p.2))
      else if c = '-' ∨ isDigitCh c then
        (parseInt (c :: r)).map (fun p => (.jint p.1, p.2))
      else none

/-- Reads one or more comma-separated values, consuming the closing `]`. -/
def parseItems : Nat → List Char → Option (List JVal × List Char)
  | 0, _ => none
  | fuel + 1, cs =>
      match parseV fuel cs with
      | none => none
      | some (v, r) =>
          match r with
          | ',' :: r' => (parseItems fuel r').map (fun p => (v :: p.1, p.2))
          | ']' :: r' => some ([v], r')
          | _ => none

/-- Reads one or more comma-separated `"key":value` members, consuming
the closing brace. -/
def parseFields : Nat → List Char → Option (List (String × JVal) × List Char)
  | 0, _ => none
  | fuel + 1, cs =>
      match cs with
      | '"' :: r =>
          match parseStrBody r with
          | none => none
          | some (key, r1) =>
              match r1 with
              | ':' :: r2 =>
                  match parseV fuel r2 with
                  | none => none
                  | some (v, r3) =>
                      match r3 with
                      | ',' :: r4 =>
                          (parseFields fuel r4).map
                            (fun p => ((String.mk key, v) :: p.1, p.2))
                      | '}' :: r4 => some ([(String.mk key, v)], r4)
                      | _ => none
              | _ => none
      | _ => none

end

/-- `JSON.parse` model on `JVal`: the whole input must be consumed. -/
def JVal.parse (s : String) : Option JVal :=
  match parseV (s.data.length + 1) s.data with
  | some (j, []) => some j
  | _ => none

/-! ## Round-trip of the JSON codec: digit and integer lemmas -/

/-- `true` iff the input does not start with a decimal digit (so a
digit run cannot extend into it). -/
def headNotDigit : List Char → Bool
  | [] => true
  | c :: _ => !(isDigitCh c)

theorem digitChar_toNat {k : Nat} (h : k < 10) : (digitChar k).toNat = 48 + k := by
  interval_cases k <;> decide

theorem isDigitCh_digitChar {k : Nat} (h : k < 10) : isDigitCh (digitChar k) = true := by
  interval_cases k <;> decide

theorem natChars_unfold (n : Nat) :
    natChars n =
      if n < 10 then [digitChar n] else natChars (n / 10) ++ [digitChar (n % 10)] := by
  rw [natChars.eq_def]
  split <;> simp_all

theorem natChars_digits (n : Nat) : ∀ c ∈ natChars n, isDigitCh c = true := by
  induction n using Nat.strongRecOn with
  | _ n ih =>
    intro c hc
    rw [natChars_unfold] at hc
    by_cases h : n < 10
    · simp only [if_pos h, List.mem_singleton] at hc
      exact hc ▸ isDigitCh_digitChar h
    · simp only [if_neg h, List.mem_append, List.mem_singleton] at hc
      rcases hc with hc | hc
      · exact ih (n / 10) (Nat.div_lt_self (by omega) (by omega)) c hc
      · exact hc ▸ isDigitCh_digitChar (Nat.mod_lt _ (by omega))

theorem natChars_ne_nil (n : Nat) : natChars n ≠ [] := by
  rw [natChars_unfold]
  split <;> simp

theorem digitsVal_append_one (ds : List Char) (c : Char) :
    digitsVal (ds ++ [c]) = digitsVal ds * 10 + (c.toNat - 48) := by
  simp [digitsVal, List.foldl_append]

theorem digitsVal_natChars (n : Nat) : digitsVal (natChars n) = n := by
  induction n using Nat.strongRecOn with
  | _ n ih =>
    rw [natChars_unfold]
    by_cases h : n < 10
    · simp only [if_pos h]
      simp [digitsVal, digitChar_toNat h]
    · simp only [if_neg h]
      rw [digitsVal_append_one, ih (n / 10) (Nat.div_lt_self (by omega) (by omega)),
        digitChar_toNat (Nat.mod_lt _ (by omega))]
      omega

theorem takeDigits_stop {cs : List Char} (h : headNotDigit cs = true) :
    takeDigits cs = ([], cs) := by
  cases cs with
  | nil => rfl
  | cons c t =>
    simp only [headNotDigit, Bool.not_eq_true'] at h
    simp [takeDigits, h]

theorem takeDigits_run (ds : List Char) (hds : ∀ c ∈ ds, isDigitCh c = true)
    (rest : List Char) (hr : headNotDigit rest = true) :
    takeDigits (ds ++ rest) = (ds, rest) := by
  induction ds with
  | nil => simpa using takeDigits_stop hr
  | cons c t ih =>
    have hc : isDigitCh c = true := hds c (by simp)
    have ht := ih (fun x hx => hds x (by simp [hx]))
    simp [takeDigits, hc, ht]

/-- A digit character is none of the JSON structural characters. -/
theorem digit_excl {c : Char} (hc : isDigitCh c = true) :
    c ≠ 'n' ∧ c ≠ 't' ∧ c ≠ 'f' ∧ c ≠ '"' ∧ c ≠ '[' ∧ c ≠ '{' ∧ c ≠ ']' ∧
      c ≠ '}' ∧ c ≠ ',' ∧ c ≠ '-' ∧ c ≠ ':' := by
  refine ⟨?_, ?_, ?_, ?_, ?_, ?_, ?_, ?_, ?_, ?_, ?_⟩ <;>
    (intro he; subst he; revert hc; decide)

theorem natChars_head (n : Nat) :
    ∃ c t, natChars n = c :: t ∧ isDigitCh c = true := by
  match h : natChars n with
  | [] => exact absurd h (natChars_ne_nil n)
  | c :: t =>
    refine ⟨c, t, rfl, natChars_digits n c ?_⟩
    rw [h]
    exact List.mem_cons_self ..

theorem parseInt_cons (c : Char) (cs : List Char) :
    parseInt (c :: cs) =
      if c = '-' then
        if (takeDigits cs).1.isEmpty then none
        else some (-(digitsVal (takeDigits cs).1 : Int), (takeDigits cs).2)
      else
        if (takeDigits (c :: cs)).1.isEmpty then none
        else some ((digitsVal (takeDigits (c :: cs)).1 : Int), (takeDigits (c :: cs)).2) := by
  rfl

theorem parseInt_intChars (i : Int) (rest : List Char)
    (hr : headNotDigit rest = true) :
    parseInt (intChars i ++ rest) = some (i, rest) := by
  by_cases hi : i < 0
  · have harg : intChars i ++ rest = '-' :: (natChars i.natAbs ++ rest) := by
      simp [intChars, hi]
    rw [harg, parseInt_cons, if_pos rfl,
      takeDigits_run _ (natChars_digits _) _ hr]
    simp only [List.isEmpty_eq_true]
    rw [if_neg (natChars_ne_nil _), digitsVal_natChars]
    have hcast : -(i.natAbs : Int) = i := by omega
    rw [hcast]
  · obtain ⟨c, t, hct, hc⟩ := natChars_head i.natAbs
    have hne : c ≠ '-' := (digit_excl hc).2.2.2.2.2.2.2.2.2.1
    have harg : intChars i ++ rest = c :: (t ++ rest) := by
      simp [intChars, hi, hct]
    rw [harg, parseInt_cons, if_neg hne,
      show c :: (t ++ rest) = (c :: t) ++ rest from rfl, ← hct,
      takeDigits_run _ (natChars_digits _) _ hr]
    simp only [List.isEmpty_eq_true]
    rw [if_neg (natChars_ne_nil _), digitsVal_natChars]
    have hcast : (i.natAbs : Int) = i := by omega
    rw [hcast]

/-! ## Round-trip of the JSON codec: string-escape lemmas -/

theorem hexVal_hexDigit {n : Nat} (h : n < 16) : hexVal (hexDigit n) = some n := by
  interval_cases n <;> decide

theorem parseStrBody_u (a b cc d : Char) (rest' : List Char) :
    parseStrBody ('\\' :: 'u' :: a :: b :: cc :: d :: rest') =
      (match hexVal a, hexVal b, hexVal cc, hexVal d with
       | some va, some vb, some vc, some vd =>
           (parseStrBody rest').map
             (fun r => (Char.ofNat (((va * 16 + vb) * 16 + vc) * 16 + vd) :: r.1, r.2))
       | _, _, _, _ => none) := rfl

theorem parseStrBody_escapeChar (c : Char) (rest : List Char) :
    parseStrBody (escapeChar c ++ rest) =
      (parseStrBody rest).map (fun r => (c :: r.1, r.2)) := by
  by_cases h1 : c = '"'
  · subst h1; rfl
  by_cases h2 : c = '\\'
  · subst h2; rfl
  by_cases h3 : c = '\n'
  · subst h3; rfl
  by_cases h4 : c = '\r'
  · subst h4; rfl
  by_cases h5 : c = '\t'
  · subst h5; rfl
  by_cases h6 : c.toNat = 8
  · have hc : c = Char.ofNat 8 := by rw [← h6, Char.ofNat_toNat]
    subst hc; rfl
  by_cases h7 : c.toNat = 12
  · have hc : c = Char.ofNat 12 := by rw [← h7, Char.ofNat_toNat]
    subst hc; rfl
  by_cases h8 : c.toNat < 32
  · have hesc : escapeChar c =
        ['\\', 'u', '0', '0', hexDigit (c.toNat / 16), hexDigit (c.toNat % 16)] := by
      simp only [escapeChar, if_neg h1, if_neg h2, if_neg h3, if_neg h4, if_neg h5,
        if_neg h6, if_neg h7, if_pos h8]
    rw [hesc]
    show parseStrBody
        ('\\' :: 'u' :: '0' :: '0' :: hexDigit (c.toNat / 16) ::
          hexDigit (c.toNat % 16) :: rest) = _
    rw [parseStrBody_u]
    rw [show hexVal '0' = some 0 from by decide,
      hexVal_hexDigit (show c.toNat / 16 < 16 by omega),
      hexVal_hexDigit (show c.toNat % 16 < 16 by omega)]
    have hval : ((0 * 16 + 0) * 16 + c.toNat / 16) * 16 + c.toNat % 16 = c.toNat := by
      omega
    dsimp only
    simp only [hval, Char.ofNat_toNat]
  · have hesc : escapeChar c = [c] := by
      simp only [escapeChar, if_neg h1, if_neg h2, if_neg h3, if_neg h4, if_neg h5,
        if_neg h6, if_neg h7, if_neg h8]
    rw [hesc]
    show parseStrBody (c :: rest) = _
    rw [parseStrBody.eq_def]
    simp only [if_neg h1, if_neg h2]

theorem parseStrBody_escapeList (s : List Char) (rest : List Char) :
    parseStrBody (escapeList s ++ '"' :: rest) = some (s, rest) := by
  induction s with
  | nil =>
    show parseStrBody ('"' :: rest) = _
    rw [parseStrBody.eq_def]
    simp
  | cons c cs ih =>
    show parseStrBody (escapeChar c ++ escapeList cs ++ '"' :: rest) = _
    rw [List.append_assoc, parseStrBody_escapeChar, ih]
    rfl

/-! ## Round-trip of the JSON codec: parser one-step unfoldings -/

set_option maxHeartbeats 2000000 in
theorem parseV_cons (fuel : Nat) (c : Char) (r : List Char) :
    parseV (fuel + 1) (c :: r) =
      (if c = 'n' then
        match r with
        | 'u' :: 'l' :: 'l' :: r' => some (.jnull, r')
        | _ => none
      else if c = 't' then
        match r with
        | 'r' :: 'u' :: 'e' :: r' => some (.jbool true, r')
        | _ => none
      else if c = 'f' then
        match r with
        | 'a' :: 'l' :: 's' :: 'e' :: r' => some (.jbool false, r')
        | _ => none
      else if c = '"' then
        (parseStrBody r).map (fun p => (.jstr (String.mk p.1), p.2))
      else if c = '[' then
        match r with
        | ']' :: r' => some (.jarr [], r')
        | _ => (parseItems fuel r).map (fun p => (.jarr p.1, p.2))
      else if c = '{' then
        match r with
        | '}' :: r' => some (.jobj [], r')
        | _ => (parseFields fuel r).map (fun p => (.jobj p.1, p.2))
      else if c = '-' ∨ isDigitCh c then
        (parseInt (c :: r)).map (fun p => (.jint p.1, p.2))
      else none) := by
  rw [parseV.eq_def]

set_option maxHeartbeats 2000000 in
theorem parseItems_step (fuel : Nat) (cs : List Char) :
    parseItems (fuel + 1) cs =
      (match parseV fuel cs with
       | none => none
       | some (v, r) =>
           match r with
           | ',' :: r' => (parseItems fuel r').map (fun p => (v :: p.1, p.2))
           | ']' :: r' => some ([v], r')
           | _ => none) := by
  rw [parseItems.eq_def]

set_option maxHeartbeats 2000000 in
theorem parseFields_step (fuel : Nat) (cs : List Char) :
    parseFields (fuel + 1) cs =
      (match cs with
       | '"' :: r =>
           match parseStrBody r with
           | none => none
           | some (key, r1) =>
               match r1 with
               | ':' :: r2 =>
                   match parseV fuel r2 with
                   | none => none
                   | some (v, r3) =>
                       match r3 with
                       | ',' :: r4 =>
                           (parseFields fuel r4).map
                             (fun p => ((String.mk key, v) :: p.1, p.2))
                       | '}' :: r4 => some ([(String.mk key, v)], r4)
                       | _ => none
               | _ => none
       | _ => none) := by
  rw [parseFields.eq_def]

/-! ## Round-trip of the JSON codec: renderer unfoldings -/

set_option maxHeartbeats 1000000 in
theorem stringifyL_jnull : JVal.stringifyL .jnull = ['n', 'u', 'l', 'l'] := by
  rw [JVal.stringifyL.eq_def]

set_option maxHeartbeats 1000000 in
theorem stringifyL_jbool (b : Bool) :
    JVal.stringifyL (.jbool b) =
      if b then ['t', 'r', 'u', 'e'] else ['f', 'a', 'l', 's', 'e'] := by
  cases b <;> rw [JVal.stringifyL.eq_def] <;> simp

set_option maxHeartbeats 1000000 in
theorem stringifyL_jint (i : Int) : JVal.stringifyL (.jint i) = intChars i := by
  rw [JVal.stringifyL.eq_def]

set_option maxHeartbeats 1000000 in
theorem stringifyL_jstr (s : String) : JVal.stringifyL (.jstr s) = strChars s := by
  rw [JVal.stringifyL.eq_def]

set_option maxHeartbeats 1000000 in
theorem stringifyL_jarr (items : List JVal) :
    JVal.stringifyL (.jarr items) = '[' :: (JVal.itemsL items ++ [']']) := by
  rw [JVal.stringifyL.eq_def]

set_option maxHeartbeats 1000000 in
theorem stringifyL_jobj (fields : List (String × JVal)) :
    JVal.stringifyL (.jobj fields) = '{' :: (JVal.fieldsL fields ++ ['}']) := by
  rw [JVal.stringifyL.eq_def]

set_option maxHeartbeats 1000000 in
theorem itemsL_nil : JVal.itemsL [] = [] := by
  rw [JVal.itemsL.eq_def]

set_option maxHeartbeats 1000000 in
theorem itemsL_one (v : JVal) : JVal.itemsL [v] = JVal.stringifyL v := by
  rw [JVal.itemsL.eq_def]

set_option maxHeartbeats 1000000 in
theorem itemsL_cons2 (v v' : JVal) (vs : List JVal) :
    JVal.itemsL (v :: v' :: vs) =
      JVal.stringifyL v ++ ',' :: JVal.itemsL (v' :: vs) := by
  rw [JVal.itemsL.eq_def]

set_option maxHeartbeats 1000000 in
theorem fieldsL_nil : JVal.fieldsL [] = [] := by
  rw [JVal.fieldsL.eq_def]

set_option maxHeartbeats 1000000 in
theorem fieldsL_one (k : String) (v : JVal) :
    JVal.fieldsL [(k, v)] = strChars k ++ ':' :: JVal.stringifyL v := by
  rw [JVal.fieldsL.eq_def]

set_option maxHeartbeats 1000000 in
theorem fieldsL_cons2 (k : String) (v : JVal) (f : String × JVal)
    (fs : List (String × JVal)) :
    JVal.fieldsL ((k, v) :: f :: fs) =
      strChars k ++ ':' :: JVal.stringifyL v ++ ',' :: JVal.fieldsL (f :: fs) := by
  rw [JVal.fieldsL.eq_def]

theorem intChars_head (i : Int) :
    ∃ c t, intChars i = c :: t ∧ (c = '-' ∨ isDigitCh c = true) := by
  by_cases hi : i < 0
  · obtain ⟨c, t, hct, _⟩ := natChars_head i.natAbs
    exact ⟨'-', natChars i.natAbs, by simp [intChars, hi], Or.inl rfl⟩
  · obtain ⟨c, t, hct, hc⟩ := natChars_head i.natAbs
    exact ⟨c, t, by simp [intChars, hi, hct], Or.inr hc⟩

/-- Every rendered value starts with a character that closes neither an
array nor an object. -/
theorem stringifyL_head (j : JVal) :
    ∃ c t, JVal.stringifyL j = c :: t ∧ c ≠ ']' ∧ c ≠ '}' := by
  cases j with
  | jnull => exact ⟨'n', _, stringifyL_jnull, by decide, by decide⟩
  | jbool b =>
    cases b
    · exact ⟨'f', _, by rw [stringifyL_jbool]; rfl, by decide, by decide⟩
    · exact ⟨'t', _, by rw [stringifyL_jbool]; rfl, by decide, by decide⟩
  | jint i =>
    obtain ⟨c, t, hct, hc⟩ := intChars_head i
    refine ⟨c, t, by rw [stringifyL_jint, hct], ?_, ?_⟩
    · rcases hc with hc | hc
      · subst hc; decide
      · exact (digit_excl hc).2.2.2.2.2.2.1
    · rcases hc with hc | hc
      · subst hc; decide
      · exact (digit_excl hc).2.2.2.2.2.2.2.1
  | jstr s => exact ⟨'"', _, by rw [stringifyL_jstr]; rfl, by decide, by decide⟩
  | jarr items => exact ⟨'[', _, stringifyL_jarr items, by decide, by decide⟩
  | jobj fields => exact ⟨'{', _, stringifyL_jobj fields, by decide, by decide⟩

/-! ## Round-trip of the JSON codec: derived branch lemmas -/

theorem headNotDigit_cons (c : Char) (x : List Char) :
    headNotDigit (c :: x) = !(isDigitCh c) := rfl

theorem parseV_quote (fuel : Nat) (r : List Char) :
    parseV (fuel + 1) ('"' :: r) =
      (parseStrBody r).map (fun p => (.jstr (String.mk p.1), p.2)) := by
  rw [parseV_cons]; simp

theorem parseV_lbrack (fuel : Nat) (c : Char) (t : List Char) (hc : c ≠ ']') :
    parseV (fuel + 1) ('[' :: c :: t) =
      (parseItems fuel (c :: t)).map (fun p => (.jarr p.1, p.2)) := by
  rw [parseV_cons]
  simp only [show ¬(('[' : Char) = 'n') from by decide,
    show ¬(('[' : Char) = 't') from by decide,
    show ¬(('[' : Char) = 'f') from by decide,
    show ¬(('[' : Char) = '"') from by decide, if_pos rfl, if_neg, ite_false, ite_true,
    if_false, if_true, reduceIte]
  split
  · next r' heq =>
    exfalso
    cases heq
    exact hc rfl
  · rfl

theorem parseV_lbrace (fuel : Nat) (c : Char) (t : List Char) (hc : c ≠ '}') :
    parseV (fuel + 1) ('{' :: c :: t) =
      (parseFields fuel (c :: t)).map (fun p => (.jobj p.1, p.2)) := by
  rw [parseV_cons]
  simp only [show ¬(('{' : Char) = 'n') from by decide,
    show ¬(('{' : Char) = 't') from by decide,
    show ¬(('{' : Char) = 'f') from by decide,
    show ¬(('{' : Char) = '"') from by decide,
    show ¬(('{' : Char) = '[') from by decide, if_pos rfl, if_neg, ite_false, ite_true,
    if_false, if_true, reduceIte]
  split
  · next r' heq =>
    exfalso
    cases heq
    exact hc rfl
  · rfl

/-! ## Round-trip of the JSON codec: the main induction -/

mutual

theorem rt_val : ∀ (j : JVal) (fuel : Nat) (rest : List Char),
    (JVal.stringifyL j).length < fuel → headNotDigit rest = true →
    parseV fuel (JVal.stringifyL j ++ rest) = some (j, rest)
  | .jnull, fuel, rest, hf, _ => by
    rw [stringifyL_jnull] at hf ⊢
    cases fuel with
    | zero => exact absurd hf (Nat.not_lt_zero _)
    | succ f =>
      simp only [List.cons_append, List.nil_append]
      rw [parseV_cons]
      simp
  | .jbool true, fuel, rest, hf, _ => by
    rw [stringifyL_jbool] at hf ⊢
    cases fuel with
    | zero => exact absurd hf (Nat.not_lt_zero _)
    | succ f =>
      simp only [if_true, ite_true, List.cons_append, List.nil_append]
      rw [parseV_cons]
      simp
  | .jbool false, fuel, rest, hf, _ => by
    rw [stringifyL_jbool] at hf ⊢
    cases fuel with
    | zero => exact absurd hf (Nat.not_lt_zero _)
    | succ f =>
      simp only [if_false, ite_false, Bool.false_eq_true, List.cons_append,
        List.nil_append]
      rw [parseV_cons]
      simp
  | .jint i, fuel, rest, hf, hr => by
    rw [stringifyL_jint] at hf ⊢
    cases fuel with
    | zero => exact absurd hf (Nat.not_lt_zero _)
    | succ f =>
      obtain ⟨c, t, hct, hc⟩ := intChars_head i
      have hex : c ≠ 'n' ∧ c ≠ 't' ∧ c ≠ 'f' ∧ c ≠ '"' ∧ c ≠ '[' ∧ c ≠ '{' := by
        rcases hc with hc | hc
        · subst hc
          refine ⟨?_, ?_, ?_, ?_, ?_, ?_⟩ <;> decide
        · exact ⟨(digit_excl hc).1, (digit_excl hc).2.1, (digit_excl hc).2.2.1,
            (digit_excl hc).2.2.2.1, (digit_excl hc).2.2.2.2.1,
            (digit_excl hc).2.2.2.2.2.1⟩
      obtain ⟨h1, h2, h3, h4, h5, h6⟩ := hex
      rw [hct]
      simp only [List.cons_append]
      rw [parseV_cons, if_neg h1, if_neg h2, if_neg h3, if_neg h4, if_neg h5,
        if_neg h6, if_pos hc,
        show c :: (t ++ rest) = (c :: t) ++ rest from rfl, ← hct,
        parseInt_intChars i rest hr]
      rfl
  | .jstr s, fuel, rest, hf, _ => by
    rw [stringifyL_jstr] at hf ⊢
    cases fuel with
    | zero => exact absurd hf (Nat.not_lt_zero _)
    | succ f =>
      show parseV (f + 1) ('"' :: (escapeList s.data ++ ['"']) ++ rest) = _
      simp only [List.cons_append]
      rw [parseV_quote, List.append_assoc,
        show ['"'] ++ rest = '"' :: rest from rfl, parseStrBody_escapeList]
      rfl
  | .jarr [], fuel, rest, hf, _ => by
    rw [stringifyL_jarr, itemsL_nil] at hf ⊢
    cases fuel with
    | zero => exact absurd hf (Nat.not_lt_zero _)
    | succ f =>
      simp only [List.nil_append, List.cons_append]
      rw [parseV_cons]
      simp
  | .jarr (v :: vs), fuel, rest, hf, _ => by
    rw [stringifyL_jarr] at hf ⊢
    cases fuel with
    | zero => exact absurd hf (Nat.not_lt_zero _)
    | succ f =>
      have harr : (JVal.itemsL (v :: vs) ++ [']']) ++ rest
          = JVal.itemsL (v :: vs) ++ ']' :: rest := by simp
      obtain ⟨c0, t0, hct, hcne, _⟩ := stringifyL_head v
      obtain ⟨X, hX⟩ : ∃ X, JVal.itemsL (v :: vs) = JVal.stringifyL v ++ X := by
        cases vs with
        | nil => exact ⟨[], by rw [itemsL_one]; simp⟩
        | cons v' vs' => exact ⟨',' :: JVal.itemsL (v' :: vs'), itemsL_cons2 ..⟩
      have hcons : JVal.itemsL (v :: vs) ++ ']' :: rest
          = c0 :: (t0 ++ (X ++ ']' :: rest)) := by
        rw [hX, hct]
        simp
      have hfuel : (JVal.itemsL (v :: vs)).length + 1 < f := by
        simp only [List.length_cons, List.length_append, List.length_singleton] at hf
        omega
      simp only [List.cons_append]
      rw [harr, hcons, parseV_lbrack f c0 (t0 ++ (X ++ ']' :: rest)) hcne, ← hcons,
        rt_items v vs f rest hfuel]
      rfl
  | .jobj [], fuel, rest, hf, _ => by
    rw [stringifyL_jobj, fieldsL_nil] at hf ⊢
    cases fuel with
    | zero => exact absurd hf (Nat.not_lt_zero _)
    | succ f =>
      simp only [List.nil_append, List.cons_append]
      rw [parseV_cons]
      simp
  | .jobj ((k, v) :: fs), fuel, rest, hf, _ => by
    rw [stringifyL_jobj] at hf ⊢
    cases fuel with
    | zero => exact absurd hf (Nat.not_lt_zero _)
    | succ f =>
      have hobj : (JVal.fieldsL ((k, v) :: fs) ++ ['}']) ++ rest
          = JVal.fieldsL ((k, v) :: fs) ++ '}' :: rest := by simp
      obtain ⟨X, hX⟩ : ∃ X, JVal.fieldsL ((k, v) :: fs)
          = strChars k ++ (':' :: JVal.stringifyL v ++ X) := by
        cases fs with
        | nil => exact ⟨[], by rw [fieldsL_one]; simp⟩
        | cons f' fs' =>
          refine ⟨',' :: JVal.fieldsL (f' :: fs'), ?_⟩
          rw [fieldsL_cons2]
          simp
      have hcons : JVal.fieldsL ((k, v) :: fs) ++ '}' :: rest
          = '"' :: ((escapeList k.data ++ ['"']) ++
              ((':' :: JVal.stringifyL v ++ X) ++ '}' :: rest)) := by
        rw [hX]
        simp [strChars]
      have hfuel : (JVal.fieldsL ((k, v) :: fs)).length + 1 < f := by
        simp only [List.length_cons, List.length_append, List.length_singleton] at hf
        omega
      simp only [List.cons_append]
      rw [hobj, hcons, parseV_lbrace f '"' _ (by decide), ← hcons,
        rt_fields (k, v) fs f rest hfuel]
      rfl
termination_by j _ _ _ _ => sizeOf j

theorem rt_items : ∀ (v : JVal) (vs : List JVal) (fuel : Nat) (rest : List Char),
    (JVal.itemsL (v :: vs)).length + 1 < fuel →
    parseItems fuel (JVal.itemsL (v :: vs) ++ ']' :: rest) = some (v :: vs, rest)
  | v, [], fuel, rest, hf => by
    cases fuel with
    | zero => exact absurd hf (Nat.not_lt_zero _)
    | succ f =>
      rw [itemsL_one] at hf ⊢
      have hlen : (JVal.stringifyL v).length < f := by omega
      rw [parseItems_step,
        rt_val v f (']' :: rest) hlen (by rw [headNotDigit_cons]; decide)]
      rfl
  | v, v' :: vs', fuel, rest, hf => by
    cases fuel with
    | zero => exact absurd hf (Nat.not_lt_zero _)
    | succ f =>
      rw [itemsL_cons2] at hf ⊢
      simp only [List.length_append, List.length_cons] at hf
      have hlenv : (JVal.stringifyL v).length < f := by omega
      have hlent : (JVal.itemsL (v' :: vs')).length + 1 < f := by omega
      rw [parseItems_step, List.append_assoc,
        show (',' :: JVal.itemsL (v' :: vs')) ++ ']' :: rest
          = ',' :: (JVal.itemsL (v' :: vs') ++ ']' :: rest) from rfl,
        rt_val v f _ hlenv (by rw [headNotDigit_cons]; decide)]
      show Option.map (fun p => (v :: p.1, p.2))
          (parseItems f (JVal.itemsL (v' :: vs') ++ ']' :: rest))
        = some (v :: v' :: vs', rest)
      rw [rt_items v' vs' f rest hlent]
      rfl
termination_by v vs _ _ _ => sizeOf v + sizeOf vs

theorem rt_fields : ∀ (kv : String × JVal) (fs : List (String × JVal))
    (fuel : Nat) (rest : List Char),
    (JVal.fieldsL (kv :: fs)).length + 1 < fuel →
    parseFields fuel (JVal.fieldsL (kv :: fs) ++ '}' :: rest) = some (kv :: fs, rest)
  | (k, v), [], fuel, rest, hf => by
    cases fuel with
    | zero => exact absurd hf (Nat.not_lt_zero _)
    | succ f =>
      rw [fieldsL_one] at hf ⊢
      simp only [List.length_append, List.length_cons, strChars,
        List.length_cons] at hf
      have hlen : (JVal.stringifyL v).length < f := by omega
      have harg : (strChars k ++ ':' :: JVal.stringifyL v) ++ '}' :: rest
          = '"' :: (escapeList k.data ++ '"' ::
              (':' :: (JVal.stringifyL v ++ '}' :: rest))) := by
        simp [strChars]
      rw [harg, parseFields_step]
      show (match parseStrBody (escapeList k.data ++ '"' ::
            (':' :: (JVal.stringifyL v ++ '}' :: rest))) with
          | none => none
          | some (key, r1) =>
              match r1 with
              | ':' :: r2 =>
                  match parseV f r2 with
                  | none => none
                  | some (w, r3) =>
                      match r3 with
                      | ',' :: r4 =>
                          (parseFields f r4).map
                            (fun p => ((String.mk key, w) :: p.1, p.2))
                      | '}' :: r4 => some ([(String.mk key, w)], r4)
                      | _ => none
              | _ => none)
        = some ([(k, v)], rest)
      rw [parseStrBody_escapeList]
      show (match parseV f (JVal.stringifyL v ++ '}' :: rest) with
          | none => none
          | some (w, r3) =>
              match r3 with
              | ',' :: r4 =>
                  (parseFields f r4).map
                    (fun p => ((String.mk k.data, w) :: p.1, p.2))
              | '}' :: r4 => some ([(String.mk k.data, w)], r4)
              | _ => none)
        = some ([(k, v)], rest)
      rw [rt_val v f ('}' :: rest) hlen (by rw [headNotDigit_cons]; decide)]
      rfl
  | (k, v), f' :: fs', fuel, rest, hf => by
    cases fuel with
    | zero => exact absurd hf (Nat.not_lt_zero _)
    | succ f =>
      rw [fieldsL_cons2] at hf ⊢
      simp only [List.length_append, List.length_cons, strChars,
        List.length_cons] at hf
      have hlenv : (JVal.stringifyL v).length < f := by omega
      have hlent : (JVal.fieldsL (f' :: fs')).length + 1 < f := by omega
      have harg : (strChars k ++ ':' :: JVal.stringifyL v ++
            ',' :: JVal.fieldsL (f' :: fs')) ++ '}' :: rest
          = '"' :: (escapeList k.data ++ '"' ::
              (':' :: (JVal.stringifyL v ++
                ',' :: (JVal.fieldsL (f' :: fs') ++ '}' :: rest)))) := by
        simp [strChars]
      rw [harg, parseFields_step]
      show (match parseStrBody (escapeList k.data ++ '"' ::
            (':' :: (JVal.stringifyL v ++
              ',' :: (JVal.fieldsL (f' :: fs') ++ '}' :: rest)))) with
          | none => none
          | some (key, r1) =>
              match r1 with
              | ':' :: r2 =>
                  match parseV f r2 with
                  | none => none
                  | some (w, r3) =>
                      match r3 with
                      | ',' :: r4 =>
                          (parseFields f r4).map
                            (fun p => ((String.mk key, w) :: p.1, p.2))
                      | '}' :: r4 => some ([(String.mk key, w)], r4)
                      | _ => none
              | _ => none)
        = some ((k, v) :: f' :: fs', rest)
      rw [parseStrBody_escapeList]
      show (match parseV f (JVal.stringifyL v ++
            ',' :: (JVal.fieldsL (f' :: fs') ++ '}' :: rest)) with
          | none => none
          | some (w, r3) =>
              match r3 with
              | ',' :: r4 =>
                  (parseFields f r4).map
                    (fun p => ((String.mk k.data, w) :: p.1, p.2))
              | '}' :: r4 => some ([(String.mk k.data, w)], r4)
              | _ => none)
        = some ((k, v) :: f' :: fs', rest)
      rw [rt_val v f _ hlenv (by rw [headNotDigit_cons]; decide)]
      show Option.map (fun p => ((String.mk k.data, v) :: p.1, p.2))
          (parseFields f (JVal.fieldsL (f' :: fs') ++ '}' :: rest))
        = some ((k, v) :: f' :: fs', rest)
      rw [rt_fields f' fs' f rest hlent]
      rfl
termination_by kv fs _ _ _ => sizeOf kv + sizeOf fs

end

/-- The JSON codec round-trip: parsing the canonical rendering of any
value recovers the value. -/
theorem JVal.parse_stringify (j : JVal) : JVal.parse (JVal.stringify j) = some j := by
  unfold JVal.parse JVal.stringify
  have h := rt_val j ((JVal.stringifyL j).length + 1) [] (by omega) rfl
  rw [List.append_nil] at h
  show (match parseV ((JVal.stringifyL j).length + 1) (JVal.stringifyL j) with
      | some (v, []) => some v
      | _ => none) = some j
  rw [h]

/-! ## The `MailService` (`src/services/mailService.ts`)

The AES cipher of `crypto-js` enters as a function pair: `enc` is
`s ↦ CryptoJS.AES.encrypt(s, APP_SECRET_KEY).toString()` and `dec` is
the corresponding decryption made total, returning `none` when
decryption or UTF-8 decoding of the result throws.  Correct symmetric
decryption (`dec (enc s) = some s` for the fixed application-wide key)
is a property of the library, taken as a hypothesis where needed. -/

namespace MailService

/-- The `type` tag of a `SyncPacket`. -/
inductive PacketType where
  | PLAN
  | CUSTOMER
  | USER_REG
deriving DecidableEq, Repr

/-- The serialized tag string of a packet type. -/
def PacketType.tag : PacketType → String
  | .PLAN => "PLAN"
  | .CUSTOMER => "CUSTOMER"
  | .USER_REG => "USER_REG"

/-- `SyncPacket` from `src/services/mailService.ts`: type tag, payload
(`data: any`, modeled as a JSON value), timestamp and sender. -/
structure SyncPacket where
  type : PacketType
  data : JVal
  timestamp : String
  sender : String

/-- The JSON object a `SyncPacket` literal denotes (field order as in
the interface declaration, which is how the packet objects are
built). -/
def SyncPacket.toJVal (p : SyncPacket) : JVal :=
  .jobj [("type", .jstr p.type.tag), ("data", p.data),
         ("timestamp", .jstr p.timestamp), ("sender", .jstr p.sender)]

/-- `MailService.encrypt`:
`CryptoJS.AES.encrypt(JSON.stringify(data), APP_SECRET_KEY).toString()`. -/
def encrypt (enc : String → String) (data : JVal) : String :=
  enc (JVal.stringify data)

/-- `MailService.decrypt`: AES-decrypts, UTF-8-decodes and JSON-parses
inside a `try`/`catch` that returns `null` on any failure. -/
def decrypt (dec : String → Option String) (ciphertext : String) : Option JVal :=
  match dec ciphertext with
  | some plain => JVal.parse plain
  | none => none

/-- JavaScript `Set.add` (insertion order, first occurrence kept). -/
def setInsert (l : List String) (e : String) : List String :=
  if e ∈ l then l else l ++ [e]

/-- The hierarchy emails added by `broadcastData`, in insertion order:
the manager email when truthy (`if (user.hierarchy.rsmEmail)`), then
every subordinate tier list. -/
def hierarchyEmails : Option UserHierarchy → List String
  | none => []
  | some h =>
      (match h.rsmEmail with
       | some r => if r ≠ "" then [r] else []
       | none => []) ++
      h.seEmails.getD [] ++ h.dealerEmails.getD [] ++ h.dseEmails.getD []

/-- The validity filter of `broadcastData`:
`e && e.includes('@')`. -/
def validAddr (e : String) : Bool := (decide (e ≠ "")) && e.data.contains '@'

/-- The recipient list computed by `broadcastData`: the acting user's
own email, then the hierarchy emails, deduplicated in insertion order
(JS `Set`), then filtered to valid addresses. -/
def resolveRecipients (user : User) : List String :=
  ((user.email :: hierarchyEmails user.hierarchy).foldl setInsert []).filter
    (fun e => validAddr e)

/-- Authentication state of the `MailService`: whether the GAPI client
finished loading, and the OAuth bearer token when the consent flow has
completed. -/
structure MailState where
  gapiInited : Bool := false
  accessToken : Option String := none
deriving DecidableEq, Repr

/-- The outgoing message handed to `sendEmail`. -/
structure SendRequest where
  toAddrs : List String
  subject : String
  body : String
deriving DecidableEq, Repr

/-- `SYNC_SUBJECT_PREFIX` from `src/services/mailService.ts`. -/
def syncSubjectTag : String := "[ST_SYNC]"

/-- `broadcastData`: throws `Not Authenticated` when no bearer token is
held; otherwise resolves the recipients, and either skips the send
(empty recipient list) or produces the message: subject is the sync
tag, packet type and timestamp; body is the encrypted envelope. -/
def broadcastData (enc : String → String) (st : MailState)
    (packet : SyncPacket) (user : User) : Except String (Option SendRequest) :=
  match st.accessToken with
  | none => .error "Not Authenticated"
  | some _ =>
      let encryptedBody := encrypt enc packet.toJVal
      let subject := syncSubjectTag ++ " " ++ packet.type.tag ++ " " ++ packet.timestamp
      let recipientList := resolveRecipients user
      if recipientList.isEmpty then .ok none
      else .ok (some { toAddrs := recipientList, subject := subject, body := encryptedBody })

/-- JavaScript truthiness on the JSON values `decrypt` can return
(used by `fetchLatestData`'s `if (data)` guard). -/
def truthy : JVal → Bool
  | .jnull => false
  | .jbool b => b
  | .jint n => decide (n ≠ 0)
  | .jstr s => decide (s ≠ "")
  | .jarr _ => true
  | .jobj _ => true

/-- `fetchLatestData`: returns the empty batch when the GAPI client is
not initialized or no bearer token is held; a thrown listing error is
caught and also yields the empty batch; otherwise each message body is
decrypted and parsed, keeping the truthy results in order. -/
def fetchLatestData (dec : String → Option String) (st : MailState)
    (listOk : Bool) (bodies : List String) : Except String (List JVal) :=
  if !st.gapiInited || st.accessToken.isNone then .ok []
  else if !listOk then .ok []
  else
    .ok (bodies.filterMap (fun b =>
      match decrypt dec b with
      | some d => if truthy d then some d else none
      | none => none))

end MailService

/-! ## Helper lemmas for the verified properties -/

theorem mem_setInsert (a e : String) (l : List String) :
    a ∈ MailService.setInsert l e ↔ a ∈ l ∨ a = e := by
  unfold MailService.setInsert
  split
  · next h =>
    constructor
    · exact fun ha => Or.inl ha
    · rintro (ha | rfl)
      · exact ha
      · exact h
  · simp [List.mem_append]

theorem nodup_setInsert (e : String) (l : List String) (hl : l.Nodup) :
    (MailService.setInsert l e).Nodup := by
  unfold MailService.setInsert
  split
  · exact hl
  · next h =>
    rw [List.nodup_append]
    refine ⟨hl, List.nodup_singleton e, ?_⟩
    intro x hx hxe
    rw [List.mem_singleton] at hxe
    subst hxe
    exact h hx

theorem mem_foldl_setInsert (l : List String) : ∀ (acc : List String) (a : String),
    a ∈ l.foldl MailService.setInsert acc ↔ a ∈ acc ∨ a ∈ l := by
  induction l with
  | nil => simp
  | cons e t ih =>
    intro acc a
    rw [List.foldl_cons, ih, mem_setInsert, List.mem_cons]
    tauto

theorem nodup_foldl_setInsert (l : List String) : ∀ acc : List String,
    acc.Nodup → (l.foldl MailService.setInsert acc).Nodup := by
  induction l with
  | nil => exact fun acc h => h
  | cons e t ih => exact fun acc h => ih _ (nodup_setInsert e acc h)

theorem mem_resolveRecipients (u : User) (e : String) :
    e ∈ MailService.resolveRecipients u ↔
      MailService.validAddr e = true ∧
        (e = u.email ∨ e ∈ MailService.hierarchyEmails u.hierarchy) := by
  unfold MailService.resolveRecipients
  rw [List.mem_filter, mem_foldl_setInsert, List.mem_cons]
  simp only [List.not_mem_nil, false_or]
  tauto

theorem notifier_no_calls (cb : OnlineDb.Callback) :
    ∀ (ops : List OnlineDb.NotifierOp) (t : OnlineDb.NotifierState),
      cb ∉ t.subscribers →
      (∀ op ∈ ops, op ≠ OnlineDb.NotifierOp.subscribeOp cb) →
      cb ∉ (OnlineDb.runNotifier ops t).2 ∧
        cb ∉ (OnlineDb.runNotifier ops t).1.subscribers := by
  intro ops
  induction ops with
  | nil => exact fun t ht _ => ⟨by simp [OnlineDb.runNotifier], by simp [OnlineDb.runNotifier, ht]⟩
  | cons op rest ih =>
    intro t ht hops
    have hrest : ∀ o ∈ rest, o ≠ OnlineDb.NotifierOp.subscribeOp cb :=
      fun o ho => hops o (by simp [ho])
    have hstep : cb ∉ (OnlineDb.stepNotifier op t).1.subscribers ∧
        cb ∉ (OnlineDb.stepNotifier op t).2 := by
      cases op with
      | subscribeOp cb' =>
        have hne : cb' ≠ cb := by
          intro h
          subst h
          exact hops (OnlineDb.NotifierOp.subscribeOp cb') (List.mem_cons_self ..) rfl
        constructor
        · simp only [OnlineDb.stepNotifier, OnlineDb.subscribe, List.mem_append,
            List.mem_singleton]
          rintro (h | h)
          · exact ht h
          · exact hne h.symm
        · simp [OnlineDb.stepNotifier]
      | unsubscribeOp cb' =>
        constructor
        · simp only [OnlineDb.stepNotifier, OnlineDb.unsubscribe, List.mem_filter]
          rintro ⟨h, _⟩
          exact ht h
        · simp [OnlineDb.stepNotifier]
      | mutateNotify => exact ⟨ht, by simpa [OnlineDb.stepNotifier, OnlineDb.notifySubscribers] using ht⟩
      | snapshotNotify => exact ⟨ht, by simpa [OnlineDb.stepNotifier, OnlineDb.notifySubscribers] using ht⟩
    have hrec := ih (OnlineDb.stepNotifier op t).1 hstep.1 hrest
    constructor
    · show cb ∉ (OnlineDb.runNotifier (op :: rest) t).2
      simp only [OnlineDb.runNotifier, List.mem_append]
      rintro (h | h)
      · exact hstep.2 h
      · exact hrec.1 h
    · show cb ∉ (OnlineDb.runNotifier (op :: rest) t).1.subscribers
      simp only [OnlineDb.runNotifier]
      exact hrec.2

theorem ensureSuperAdmin_exists (users : List User) :
    ∃ u ∈ MockDb.ensureSuperAdmin users,
      (u.email = MockDb.superEmail ∨ u.email = MockDb.altEmail) ∧
        u.role = UserRole.SUPER_ADMIN := by
  unfold MockDb.ensureSuperAdmin
  split
  · next h =>
    unfold MockDb.hasSuperAdmin at h
    rw [List.any_eq_true] at h
    obtain ⟨u, hu, hcond⟩ := h
    rw [Bool.and_eq_true, Bool.or_eq_true, beq_iff_eq, beq_iff_eq, beq_iff_eq] at hcond
    exact ⟨u, hu, hcond.1, hcond.2⟩
  · refine ⟨MockDb.bootstrapSuperAdmin, by simp, Or.inl rfl, rfl⟩

set_option maxHeartbeats 2000000 in
theorem uploadLoop_error (env : RemoteEnv) :
    ∀ (atts : List Attachment) (f : Attachment),
      f ∈ atts → strStartsWith f.data "http" = false → env.uploadResult f = none →
      OnlineDb.uploadLoop env atts = .error () := by
  intro atts
  induction atts with
  | nil => simp
  | cons a t ih =>
    intro f hf hhttp hup
    rcases List.mem_cons.mp hf with rfl | hft
    · rw [OnlineDb.uploadLoop.eq_def]
      simp only [hhttp, Bool.false_eq_true, if_false, hup]
    · rw [OnlineDb.uploadLoop.eq_def]
      by_cases ha : strStartsWith a.data "http"
      · simp only [ha, if_true, ih f hft hhttp hup, Except.map]
      · simp only [ha, Bool.false_eq_true, if_false]
        cases hau : env.uploadResult a with
        | some url => simp only [ih f hft hhttp hup, Except.map]
        | none => rfl

set_option maxHeartbeats 2000000 in
theorem uploadLoop_http (env : RemoteEnv) :
    ∀ atts : List Attachment,
      (∀ f ∈ atts, strStartsWith f.data "http" = true) →
      OnlineDb.uploadLoop env atts = .ok atts := by
  intro atts
  induction atts with
  | nil => intro _; rfl
  | cons a t ih =>
    intro h
    rw [OnlineDb.uploadLoop.eq_def]
    simp only [h a (by simp), if_true, ih (fun f hf => h f (by simp [hf])), Except.map]

/-! ## Concrete sample inputs for witnesses and counterexamples -/

/-- A concrete customer record. -/
def sampleCustomer : Customer :=
  { id := "c1", createdBy := "u1", organizationId := "o1", name := "Acme Steel"
    address := "12 Mill Road", pinCode := "600001", contactPerson := "R. Rao"
    contactNumber := "9000000000", businessSector := "Automotive"
    tungaloyShare := 40, annualPotential := 12, competitors := [], fyPlan := "FY25" }

/-- An inline (non-URL) attachment. -/
def sampleAttachment : Attachment :=
  { name := "drawing.png", data := "base64payload", kind := "photo" }

/-- A concrete plan carrying one inline attachment. -/
def samplePlan : Plan :=
  { id := "p1", planType := .NEW_PROJECT, customerId := "c1", organizationId := "o1"
    projectName := "Crankshaft line", status := "OPEN", createdAt := "2024-01-01"
    createdBy := "u1", valueLakhs := 5, attachments := some [sampleAttachment] }

/-- Remote environment where the record commit succeeds and every
upload fails. -/
def envCommitOk : RemoteEnv := { commitOk := true, uploadResult := fun _ => none }

/-- Remote environment where the record commit fails and every upload
fails. -/
def envCommitFail : RemoteEnv := { commitOk := false, uploadResult := fun _ => none }

/-- A connected (online) state of the offline-capable service. -/
def connectedState : MockDb.DbState :=
  { data := INITIAL_DATA, initialized := true, isOffline := false, localStore := none }

/-- A state of the online-only service variant. -/
def onlineState : OnlineDb.DbState := { data := INITIAL_DATA, isOnline := true }

/-! ## Write-ordering facts shared by the claims -/

theorem online_noMutateBeforeSuccess (op : MockDb.WriteOp) (env : RemoteEnv)
    (s : OnlineDb.DbState) :
    noMutateBeforeSuccess (OnlineDb.applyWrite op env s).2 = true := by
  have htrue : noMutateBeforeSuccess
      [.commitAttempt, .commitOk, .localMutate] = true := by decide
  have hfail : noMutateBeforeSuccess [.commitAttempt, .commitFail] = true := by decide
  cases op with
  | addPlan plan =>
    cases hu : OnlineDb.uploadAttachments env s.isOnline plan.attachments with
    | error e => simp [OnlineDb.applyWrite, hu, noMutateBeforeSuccess]
    | ok processed =>
      by_cases h : env.commitOk = true <;>
        simp [OnlineDb.applyWrite, hu, h, htrue, hfail]
  | updatePlan planId updAtts upd =>
    cases updAtts with
    | none =>
      by_cases h : env.commitOk = true <;>
        simp [OnlineDb.applyWrite, h, htrue, hfail]
    | some atts =>
      cases hu : OnlineDb.uploadAttachments env s.isOnline (some atts) with
      | error e => simp [OnlineDb.applyWrite, hu, Except.map, noMutateBeforeSuccess]
      | ok processed =>
        by_cases h : env.commitOk = true <;>
          simp [OnlineDb.applyWrite, hu, Except.map, h, htrue, hfail]
  | addOrganization org =>
    by_cases h : env.commitOk = true <;> simp [OnlineDb.applyWrite, h, htrue, hfail]
  | updateOrganization id upd =>
    by_cases h : env.commitOk = true <;> simp [OnlineDb.applyWrite, h, htrue, hfail]
  | addUser user =>
    by_cases h : env.commitOk = true <;> simp [OnlineDb.applyWrite, h, htrue, hfail]
  | updateUser userId upd =>
    by_cases h : env.commitOk = true <;> simp [OnlineDb.applyWrite, h, htrue, hfail]
  | addCustomer customer =>
    by_cases h : env.commitOk = true <;> simp [OnlineDb.applyWrite, h, htrue, hfail]

theorem online_error_on_commit_fail (op : MockDb.WriteOp) (env : RemoteEnv)
    (s : OnlineDb.DbState) (hfail : env.commitOk = false) :
    (OnlineDb.applyWrite op env s).1 = Except.error () := by
  cases op with
  | addPlan plan =>
    cases hu : OnlineDb.uploadAttachments env s.isOnline plan.attachments with
    | error e => simp [OnlineDb.applyWrite, hu]
    | ok processed => simp [OnlineDb.applyWrite, hu, hfail]
  | updatePlan planId updAtts upd =>
    cases updAtts with
    | none => simp [OnlineDb.applyWrite, hfail]
    | some atts =>
      cases hu : OnlineDb.uploadAttachments env s.isOnline (some atts) with
      | error e => simp [OnlineDb.applyWrite, hu, Except.map]
      | ok processed => simp [OnlineDb.applyWrite, hu, Except.map, hfail]
  | addOrganization org => simp [OnlineDb.applyWrite, hfail]
  | updateOrganization id upd => simp [OnlineDb.applyWrite, hfail]
  | addUser user => simp [OnlineDb.applyWrite, hfail]
  | updateUser userId upd => simp [OnlineDb.applyWrite, hfail]
  | addCustomer customer => simp [OnlineDb.applyWrite, hfail]

theorem mock_head_localMutate (op : MockDb.WriteOp) (env : RemoteEnv)
    (s : MockDb.DbState) :
    ((MockDb.applyWrite op env s).2).head? = some Effect.localMutate := by
  cases op <;>
    (simp only [MockDb.applyWrite, MockDb.finishWrite]; split_ifs <;> rfl)

/-! ## C1 -/

/-- C1: the claim reads "for every write operation in connected mode,
the remote commit is performed first and the local collections are
mutated only after it succeeded; the local collections are never
mutated before the remote write is attempted".  That holds of the
online-only `DatabaseService` variant but not of the offline-capable
one, whose writes push/map the local collection first.  Amended
statement: in the online-only variant every write commits remotely
first, mutates only after success, and a failed commit propagates as
an error without mutation; in the offline-capable variant every write's
first observable effect is the local mutation. -/
theorem C1_remote_first_per_variant :
    (∀ (op : MockDb.WriteOp) (env : RemoteEnv) (s : OnlineDb.DbState),
        noMutateBeforeSuccess (OnlineDb.applyWrite op env s).2 = true)
    ∧ (∀ (op : MockDb.WriteOp) (env : RemoteEnv) (s : OnlineDb.DbState),
        env.commitOk = false → (OnlineDb.applyWrite op env s).1 = Except.error ())
    ∧ (∀ (op : MockDb.WriteOp) (env : RemoteEnv) (s : MockDb.DbState),
        ((MockDb.applyWrite op env s).2).head? = some Effect.localMutate) :=
  ⟨online_noMutateBeforeSuccess,
   fun op env s h => online_error_on_commit_fail op env s h,
   mock_head_localMutate⟩

/-- C1 witness: the amended statement evaluated on a concrete
`addCustomer` against both variants. -/
theorem C1_witness :
    noMutateBeforeSuccess
        (OnlineDb.applyWrite (.addCustomer sampleCustomer) envCommitFail onlineState).2
      = true
    ∧ (OnlineDb.applyWrite (.addCustomer sampleCustomer) envCommitFail onlineState).1
      = Except.error ()
    ∧ ((MockDb.applyWrite (.addCustomer sampleCustomer) envCommitFail connectedState).2).head?
      = some Effect.localMutate :=
  ⟨C1_remote_first_per_variant.1 _ _ _,
   C1_remote_first_per_variant.2.1 _ _ _ rfl,
   C1_remote_first_per_variant.2.2 _ _ _⟩

/-- C1 counterexample: in the offline-capable `DatabaseService`
(`src/services/mockDb.ts`), a connected-mode `addCustomer` mutates the
local collection *before* the remote commit is attempted (the trace
starts with the local mutation), and the record stays in the local
collection even when the remote commit fails — refuting the claim's
remote-commit-first ordering. -/
theorem C1_counterexample :
    (MockDb.applyWrite (.addCustomer sampleCustomer) envCommitOk connectedState).2
      = [Effect.localMutate, Effect.commitAttempt, Effect.commitOk]
    ∧ noMutateBeforeAttempt
        (MockDb.applyWrite (.addCustomer sampleCustomer) envCommitOk connectedState).2
      = false
    ∧ sampleCustomer ∈
        (MockDb.applyWrite (.addCustomer sampleCustomer) envCommitFail
          connectedState).1.data.customers := by
  refine ⟨by decide, by decide, by decide⟩

/-! ## C2 -/

/-- The record written by `op` is present in (or the update applied to)
the snapshot `d`, stated per operation. -/
def writtenPresent (op : MockDb.WriteOp) (env : RemoteEnv) (s : MockDb.DbState)
    (d : AppData) : Prop :=
  match op with
  | .addOrganization org => org ∈ d.organizations
  | .updateOrganization id upd =>
      d.organizations = s.data.organizations.map (fun o => if o.id = id then upd o else o)
  | .addUser u => u ∈ d.users
  | .updateUser uid upd =>
      d.users = s.data.users.map (fun x => if x.id = uid then upd x else x)
  | .addCustomer c => c ∈ d.customers
  | .addPlan p =>
      { p with attachments := some (MockDb.uploadAttachments env s.isOffline p.attachments) } ∈ d.plans
  | .updatePlan pid updAtts upd =>
      d.plans = s.data.plans.map (fun q =>
        if q.id = pid then
          (match updAtts with
           | some atts =>
               { upd q with attachments := some (MockDb.uploadAttachments env s.isOffline (some atts)) }
           | none => upd q)
        else q)

theorem mock_offline_stays_local (op : MockDb.WriteOp) (env : RemoteEnv)
    (t : MockDb.DbState) (h : t.isOffline = true) :
    (MockDb.applyWrite op env t).1.isOffline = true
    ∧ Effect.commitAttempt ∉ (MockDb.applyWrite op env t).2 := by
  cases op <;>
    simp [MockDb.applyWrite, MockDb.finishWrite, MockDb.saveToLocal, h]

/-- C2: a connected-mode write whose remote commit fails still leaves
the written record present (or updated) in the Local Replica Store,
demotes the session to offline mode, persists the snapshot, and every
write issued in offline mode never attempts a remote commit and keeps
the mode offline (local-only persistence for the rest of the
session). -/
theorem C2_failure_keeps_record_and_degrades :
    ∀ (op : MockDb.WriteOp) (env : RemoteEnv) (s : MockDb.DbState),
      s.isOffline = false → env.commitOk = false →
      writtenPresent op env s (MockDb.applyWrite op env s).1.data
      ∧ (MockDb.applyWrite op env s).1.isOffline = true
      ∧ (MockDb.applyWrite op env s).1.localStore
          = some (MockDb.applyWrite op env s).1.data
      ∧ (∀ (op' : MockDb.WriteOp) (env' : RemoteEnv) (t : MockDb.DbState),
          t.isOffline = true →
          (MockDb.applyWrite op' env' t).1.isOffline = true
          ∧ Effect.commitAttempt ∉ (MockDb.applyWrite op' env' t).2) := by
  intro op env s hoff hfail
  refine ⟨?_, ?_, ?_, fun op' env' t ht => mock_offline_stays_local op' env' t ht⟩
  · cases op with
    | updatePlan pid updAtts upd =>
      rcases updAtts with _ | atts <;>
        simp [MockDb.applyWrite, MockDb.finishWrite, MockDb.saveToLocal,
          writtenPresent, hoff, hfail]
    | _ =>
      simp [MockDb.applyWrite, MockDb.finishWrite, MockDb.saveToLocal,
        writtenPresent, hoff, hfail]
  · cases op <;>
      simp [MockDb.applyWrite, MockDb.finishWrite, MockDb.saveToLocal, hoff, hfail]
  · cases op <;>
      simp [MockDb.applyWrite, MockDb.finishWrite, MockDb.saveToLocal, hoff, hfail]

/-- C2 witness: the property evaluated on a concrete connected-mode
`addCustomer` whose remote commit fails. -/
theorem C2_witness :
    writtenPresent (.addCustomer sampleCustomer) envCommitFail connectedState
        (MockDb.applyWrite (.addCustomer sampleCustomer) envCommitFail
          connectedState).1.data
    ∧ (MockDb.applyWrite (.addCustomer sampleCustomer) envCommitFail
        connectedState).1.isOffline = true
    ∧ (MockDb.applyWrite (.addCustomer sampleCustomer) envCommitFail
        connectedState).1.localStore
      = some (MockDb.applyWrite (.addCustomer sampleCustomer) envCommitFail
          connectedState).1.data
    ∧ (∀ (op' : MockDb.WriteOp) (env' : RemoteEnv) (t : MockDb.DbState),
        t.isOffline = true →
        (MockDb.applyWrite op' env' t).1.isOffline = true
        ∧ Effect.commitAttempt ∉ (MockDb.applyWrite op' env' t).2) :=
  C2_failure_keeps_record_and_degrades (.addCustomer sampleCustomer) envCommitFail
    connectedState rfl rfl

/-! ## C3 -/

/-- The packet-type tag is injective. -/
theorem packetTag_inj (a b : MailService.PacketType) :
    a.tag = b.tag → a = b := by
  intro h
  cases a <;> cases b <;> first
    | rfl
    | exact absurd h (by decide)

/-- The JSON object of a packet determines the packet. -/
theorem packetToJVal_inj (p q : MailService.SyncPacket) :
    p.toJVal = q.toJVal → p = q := by
  intro h
  unfold MailService.SyncPacket.toJVal at h
  injection h with hlist
  injection hlist with h1 hlist
  injection hlist with h2 hlist
  injection hlist with h3 hlist
  injection hlist with h4 _
  injection h1 with _ h1v
  injection h1v with htag
  injection h2 with _ h2v
  injection h3 with _ h3v
  injection h3v with hts
  injection h4 with _ h4v
  injection h4v with hsender
  cases p with | mk pt pd pts psn =>
  cases q with | mk qt qd qts qsn =>
  dsimp only at htag h2v hts hsender
  have hty : pt = qt := packetTag_inj _ _ htag
  subst hty
  subst h2v
  subst hts
  subst hsender
  rfl

/-- C3: the envelope codec round-trip.  `encode` is AES over
`JSON.stringify` of the packet object; `decode` is JSON parsing of the
AES decryption with `null` on failure.  For any cipher pair that
correctly inverts (the crypto-js AES property for the fixed
application-wide key), decoding an encoded packet recovers exactly the
packet's JSON object, and that object determines the packet. -/
theorem C3_envelope_roundtrip :
    ∀ (enc : String → String) (dec : String → Option String),
      (∀ s, dec (enc s) = some s) →
      ∀ p : MailService.SyncPacket,
        MailService.decrypt dec (MailService.encrypt enc p.toJVal)
          = some p.toJVal
        ∧ (∀ q : MailService.SyncPacket, p.toJVal = q.toJVal → p = q) := by
  intro enc dec hdec p
  constructor
  · unfold MailService.decrypt MailService.encrypt
    rw [hdec]
    exact JVal.parse_stringify _
  · exact fun q h => packetToJVal_inj p q h

/-- A concrete sync packet with a structured payload. -/
def samplePacket : MailService.SyncPacket :=
  { type := .CUSTOMER
    data := .jobj [("id", .jstr "c1"), ("annualPotential", .jint 12)]
    timestamp := "2024-05-01T10:00:00Z"
    sender := "rep@acme.example" }

/-- C3 witness: the round-trip law applied with the identity cipher
pair at a concrete packet. -/
theorem C3_witness :
    MailService.decrypt some (MailService.encrypt id samplePacket.toJVal)
      = some samplePacket.toJVal
    ∧ (∀ q : MailService.SyncPacket, samplePacket.toJVal = q.toJVal → samplePacket = q) :=
  C3_envelope_roundtrip id some (fun _ => rfl) samplePacket

/-! ## C4 -/

/-- The one-character input `x` is not valid JSON for the parser. -/
theorem parse_x_none : JVal.parse "x" = none := by
  show (match parseV 2 ['x'] with
      | some (j, []) => some j
      | _ => none) = none
  rw [show (2 : Nat) = 1 + 1 from rfl, parseV_cons]
  simp [show isDigitCh 'x' = false from by decide]

/-- C4: `decrypt` returns `null` (never an exception, being a total
function into `Option`) whenever decryption fails or the decrypted
text fails the structural parse; and a receive batch is always
processed to a result list — `fetchLatestData` never propagates an
error for any inputs. -/
theorem C4_decode_null_on_failure :
    (∀ (dec : String → Option String) (ct : String),
      dec ct = none ∨ (∃ plain, dec ct = some plain ∧ JVal.parse plain = none) →
      MailService.decrypt dec ct = none)
    ∧ (∀ (dec : String → Option String) (st : MailService.MailState)
        (listOk : Bool) (bodies : List String),
        ∃ l, MailService.fetchLatestData dec st listOk bodies = .ok l) := by
  constructor
  · intro dec ct h
    unfold MailService.decrypt
    rcases h with h | ⟨plain, h1, h2⟩
    · rw [h]
    · rw [h1]
      exact h2
  · intro dec st listOk bodies
    unfold MailService.fetchLatestData
    split_ifs <;> exact ⟨_, rfl⟩

/-- C4 witness: decoding the foreign text `x` through the identity
cipher yields `null` because the structural parse fails, and a
concrete batch fetch produces a result list. -/
theorem C4_witness :
    MailService.decrypt some "x" = none
    ∧ ∃ l, MailService.fetchLatestData some
        { gapiInited := true, accessToken := some "tok" } true ["x"] = .ok l :=
  ⟨C4_decode_null_on_failure.1 some "x" (Or.inr ⟨"x", rfl, parse_x_none⟩),
   C4_decode_null_on_failure.2 some _ true ["x"]⟩

/-! ## C5 -/

/-- A user whose own email carries no address marker. -/
def userBob : User :=
  { id := "u9", email := "bob", name := "Bob", password := some "pw"
    role := .DSE, organizationId := "o1", organizationName := "Acme"
    isApproved := true, hierarchy := none }

/-- C5 counterexample: the recipient set for `userBob` does not contain
the acting user's own email address — the validity filter drops the
self address "bob" (no `@`), so the computed set is empty, refuting
"always contains the acting user's own email address". -/
theorem C5_counterexample :
    MailService.resolveRecipients userBob = []
    ∧ "bob" ∉ MailService.resolveRecipients userBob := ⟨by decide, by decide⟩

/-- C5: amended recipient-set properties: the set contains the acting
user's email whenever it carries a valid address marker, likewise the
manager email and every subordinate-tier email with a valid marker; it
is deduplicated and contains no invalid string. -/
theorem C5_recipients_amended : ∀ u : User,
    (MailService.validAddr u.email = true →
      u.email ∈ MailService.resolveRecipients u)
    ∧ (∀ e ∈ MailService.hierarchyEmails u.hierarchy,
        MailService.validAddr e = true → e ∈ MailService.resolveRecipients u)
    ∧ (∀ h r, u.hierarchy = some h → h.rsmEmail = some r →
        MailService.validAddr r = true → r ∈ MailService.resolveRecipients u)
    ∧ (∀ h e, u.hierarchy = some h →
        (e ∈ h.seEmails.getD [] ∨ e ∈ h.dealerEmails.getD [] ∨
          e ∈ h.dseEmails.getD []) →
        MailService.validAddr e = true → e ∈ MailService.resolveRecipients u)
    ∧ (MailService.resolveRecipients u).Nodup
    ∧ (∀ e ∈ MailService.resolveRecipients u, MailService.validAddr e = true) := by
  intro u
  have hmem := mem_resolveRecipients u
  refine ⟨?_, ?_, ?_, ?_, ?_, ?_⟩
  · exact fun hv => (hmem _).mpr ⟨hv, Or.inl rfl⟩
  · exact fun e he hv => (hmem _).mpr ⟨hv, Or.inr he⟩
  · intro h r hh hr hv
    refine (hmem _).mpr ⟨hv, Or.inr ?_⟩
    have hne : r ≠ "" := by
      intro he
      rw [MailService.validAddr, Bool.and_eq_true] at hv
      exact (of_decide_eq_true hv.1) he
    simp [MailService.hierarchyEmails, hh, hr, hne]
  · intro h e hh htier hv
    refine (hmem _).mpr ⟨hv, Or.inr ?_⟩
    simp only [MailService.hierarchyEmails, hh, List.mem_append]
    tauto
  · exact List.Nodup.filter _
      (nodup_foldl_setInsert _ [] List.nodup_nil)
  · exact fun e he => ((hmem e).mp he).1

/-- A user with a valid own address and a populated hierarchy. -/
def userAlice : User :=
  { id := "u1", email := "alice@acme.example", name := "Alice"
    password := some "pw", role := .RSM, organizationId := "o1"
    organizationName := "Acme", isApproved := true
    hierarchy := some { rsmEmail := some "boss@acme.example"
                        seEmails := some ["se1@acme.example", "bad-address"]
                        dealerEmails := none
                        dseEmails := some [] } }

/-- C5 witness: the amended properties evaluated on a concrete user. -/
theorem C5_witness :
    "alice@acme.example" ∈ MailService.resolveRecipients userAlice
    ∧ "boss@acme.example" ∈ MailService.resolveRecipients userAlice
    ∧ "se1@acme.example" ∈ MailService.resolveRecipients userAlice
    ∧ (MailService.resolveRecipients userAlice).Nodup
    ∧ (∀ e ∈ MailService.resolveRecipients userAlice,
        MailService.validAddr e = true) :=
  ⟨(C5_recipients_amended userAlice).1 (by decide),
   (C5_recipients_amended userAlice).2.2.1 _ "boss@acme.example" rfl rfl (by decide),
   (C5_recipients_amended userAlice).2.2.2.1 _ "se1@acme.example" rfl
     (Or.inl (by decide)) (by decide),
   (C5_recipients_amended userAlice).2.2.2.2.1,
   (C5_recipients_amended userAlice).2.2.2.2.2⟩

/-! ## C6 -/

/-- C6 counterexample: in the offline-capable `DatabaseService`
(`src/services/mockDb.ts`, the first cited source), a connected-mode
`addPlan` whose (non-URL) attachment upload fails still completes: the
plan is pushed with the original inline payload and the commit
proceeds — the upload failure does not fail the enclosing write. -/
theorem C6_counterexample :
    (MockDb.applyWrite (.addPlan samplePlan) envCommitOk connectedState).1.data.plans
      = [samplePlan]
    ∧ (MockDb.applyWrite (.addPlan samplePlan) envCommitOk connectedState).2
      = [Effect.localMutate, Effect.commitAttempt, Effect.commitOk] :=
  ⟨by decide, by decide⟩

/-- C6: amended attachment-handling properties of the two variants.
Offline-capable variant: degraded mode returns the attachments inline
untouched; `addPlan` always completes with the processed list; a
failing non-URL upload keeps the original file inline.  Online-only
variant: a failing non-URL upload aborts `uploadAttachments` (failing
the enclosing write, which errors without mutating), and degraded-mode
uploads throw instead of keeping the payload inline.  URL-form
attachments pass through unchanged in both variants. -/
theorem C6_attachment_handling_amended :
    (∀ (env : RemoteEnv) (atts : List Attachment), atts ≠ [] →
      MockDb.uploadAttachments env true (some atts) = atts)
    ∧ (∀ (env : RemoteEnv) (s : MockDb.DbState) (plan : Plan),
        (MockDb.applyWrite (.addPlan plan) env s).1.data.plans
          = s.data.plans ++
            [{ plan with attachments := some (MockDb.uploadAttachments env s.isOffline plan.attachments) }])
    ∧ (∀ (env : RemoteEnv) (atts : List Attachment) (f : Attachment),
        f ∈ atts → strStartsWith f.data "http" = false → env.uploadResult f = none →
        f ∈ MockDb.uploadAttachments env false (some atts))
    ∧ (∀ (env : RemoteEnv) (offline : Bool) (atts : List Attachment), atts ≠ [] →
        (∀ f ∈ atts, strStartsWith f.data "http" = true) →
        MockDb.uploadAttachments env offline (some atts) = atts
        ∧ OnlineDb.uploadAttachments env true (some atts) = .ok atts)
    ∧ (∀ (env : RemoteEnv) (atts : List Attachment) (f : Attachment),
        f ∈ atts → strStartsWith f.data "http" = false → env.uploadResult f = none →
        OnlineDb.uploadAttachments env true (some atts) = .error ())
    ∧ (∀ (env : RemoteEnv) (atts : List Attachment), atts ≠ [] →
        OnlineDb.uploadAttachments env false (some atts) = .error ()) := by
  refine ⟨?_, ?_, ?_, ?_, ?_, ?_⟩
  · intro env atts hne
    simp [MockDb.uploadAttachments, hne]
  · intro env s plan
    simp only [MockDb.applyWrite, MockDb.finishWrite, MockDb.saveToLocal]
    split_ifs <;> rfl
  · intro env atts f hf hhttp hup
    have hne : ¬atts.isEmpty = true := by
      cases atts
      · exact absurd hf (List.not_mem_nil f)
      · simp
    have hone : MockDb.uploadOne env f = f := by
      simp [MockDb.uploadOne, hhttp, hup]
    simp only [MockDb.uploadAttachments, hne, if_false, Bool.false_eq_true]
    exact List.mem_map.mpr ⟨f, hf, hone⟩
  · intro env offline atts hne hhttp
    constructor
    · cases offline with
      | true => simp [MockDb.uploadAttachments, hne]
      | false =>
        simp only [MockDb.uploadAttachments,
          show ¬atts.isEmpty = true from by simpa using hne, if_false,
          Bool.false_eq_true]
        calc atts.map (MockDb.uploadOne env)
            = atts.map id := List.map_congr_left (fun f hf => by
                simp [MockDb.uploadOne, hhttp f hf])
          _ = atts := List.map_id atts
    · simp only [OnlineDb.uploadAttachments,
        show ¬atts.isEmpty = true from by simpa using hne, if_false,
        Bool.false_eq_true, not_true, if_true]
      simpa using uploadLoop_http env atts hhttp
  · intro env atts f hf hhttp hup
    have hne : ¬atts.isEmpty = true := by
      cases atts
      · exact absurd hf (List.not_mem_nil f)
      · simp
    simp only [OnlineDb.uploadAttachments, hne, if_false, Bool.false_eq_true]
    simpa using uploadLoop_error env atts f hf hhttp hup
  · intro env atts hne
    simp [OnlineDb.uploadAttachments, show ¬atts.isEmpty = true from by simpa using hne]

/-- C6 witness: the amended properties evaluated at a concrete
attachment list with one inline file whose upload fails. -/
theorem C6_witness :
    MockDb.uploadAttachments envCommitOk true (some [sampleAttachment])
      = [sampleAttachment]
    ∧ sampleAttachment ∈
        MockDb.uploadAttachments envCommitOk false (some [sampleAttachment])
    ∧ OnlineDb.uploadAttachments envCommitOk true (some [sampleAttachment])
      = .error ()
    ∧ OnlineDb.uploadAttachments envCommitOk false (some [sampleAttachment])
      = .error () :=
  ⟨C6_attachment_handling_amended.1 envCommitOk [sampleAttachment] (by decide),
   C6_attachment_handling_amended.2.2.1 envCommitOk [sampleAttachment]
     sampleAttachment (by decide) (by decide) rfl,
   C6_attachment_handling_amended.2.2.2.2.1 envCommitOk [sampleAttachment]
     sampleAttachment (by decide) (by decide) rfl,
   C6_attachment_handling_amended.2.2.2.2.2 envCommitOk [sampleAttachment]
     (by decide)⟩

/-! ## C7 -/

namespace App

/-- The hard-coded super-admin credential test that opens `App.login`
in `src/unnamed/part_002`: either hard-coded email together with the
hard-coded password. -/
def isSuperCreds (cleanEmail cleanPass : String) : Bool :=
  (cleanEmail == "keerthithiruvarasan@gmail.com" ||
    cleanEmail == "keerthithiruvarsan@gmail.com") &&
  cleanPass == "123456789@Asdf"

/-- The ephemeral super-admin session record that `App.login` in
`src/unnamed/part_002` fabricates when no `SUPER_ADMIN` user is in the
synced collection. -/
def ephemeralSuperAdmin (cleanEmail : String) : User :=
  { id := "super_admin_session"
    name := "Super Admin"
    email := cleanEmail
    role := .SUPER_ADMIN
    organizationId := "system_global"
    organizationName := "System"
    isApproved := true }

/-- `App.login` from `src/unnamed/part_002`: first the hard-coded
super-admin credential backdoor, which succeeds with the first synced
`SUPER_ADMIN` user (or an ephemeral one) regardless of any
organization; otherwise the standard flow — organization resolved by
name, rejected when unapproved (no `system_global` exemption in this
variant), then the credential and account-approval checks. -/
def loginPart002 (orgs : List Organization) (users : List User)
    (orgName email pass : String) : LoginResult × Option User :=
  let cleanEmail := trimStr email
  let cleanPass := trimStr pass
  if isSuperCreds cleanEmail cleanPass then
    let superAdmin :=
      (users.find? (fun u => u.role == UserRole.SUPER_ADMIN)).getD
        (ephemeralSuperAdmin cleanEmail)
    ({ success := true }, some superAdmin)
  else
    match findOrg orgs orgName with
    | none => ({ success := false, message := some "Organization not found." }, none)
    | some org =>
        if ¬org.isApproved then
          ({ success := false, message := some pendingMessage }, none)
        else
          match users.find? (fun u =>
              u.organizationId == org.id && u.email == cleanEmail &&
              u.password == some cleanPass) with
          | some found =>
              if ¬found.isApproved then
                ({ success := false, message := some "Account locked or pending approval." }, none)
              else ({ success := true }, some found)
          | none =>
              ({ success := false,
                 message := some "Invalid User ID or Password for this Organization." }, none)

end App

/-- An unapproved registered organization. -/
def orgAcme : Organization :=
  { id := "org_acme", name := "Acme", adminEmail := "admin@acme.example"
    isApproved := false, createdAt := "2024-01-01" }

/-- An unapproved organization distinct from `system_global`. -/
def orgBeta : Organization :=
  { id := "org_beta", name := "Beta", adminEmail := "admin@beta.example"
    isApproved := false, createdAt := "2024-02-01" }

/-- A user of the unapproved `orgBeta` whose stored credentials are the
hard-coded super-admin pair. -/
def backdoorUser : User :=
  { id := "u7", email := "keerthithiruvarasan@gmail.com", name := "Mallory"
    password := some "123456789@Asdf", role := .DSE
    organizationId := "org_beta", organizationName := "Beta"
    isApproved := false }

/-- C7 counterexample: in the `App.login` of `src/unnamed/part_002`, a
user of the unapproved, non-`system_global` organization `orgBeta`
whose stored credentials are the hard-coded super-admin pair logs in
successfully — the credential backdoor short-circuits before the
organization-approval check, so a session is established instead of the
claimed pending-approval failure. -/
theorem C7_counterexample :
    (App.loginPart002 [orgBeta] [backdoorUser] "Beta"
        "keerthithiruvarasan@gmail.com" "123456789@Asdf").1.success = true
    ∧ (App.loginPart002 [orgBeta] [backdoorUser] "Beta"
        "keerthithiruvarasan@gmail.com" "123456789@Asdf").2
      = some (App.ephemeralSuperAdmin "keerthithiruvarasan@gmail.com")
    ∧ App.findOrg [orgBeta] "Beta" = some orgBeta
    ∧ orgBeta.isApproved = false
    ∧ orgBeta.id ≠ "system_global"
    ∧ backdoorUser.organizationId = orgBeta.id :=
  ⟨by decide, by decide, by decide, rfl, by decide, rfl⟩

/-- C7 (amended): in the `App.login` of `src/unnamed/part_000`, login
against an organization resolved by name whose approval flag is false
fails with the pending-approval message and establishes no session,
except for the distinguished `system_global` organization, for which
the pending rejection is never produced.  In the `App.login` of
`src/unnamed/part_002` the same pending-approval rejection holds only
when the submitted credentials are not the hard-coded super-admin pair
(and there is no `system_global` exemption); with that pair, login
succeeds and establishes a session regardless of any organization. -/
theorem C7_pending_approval_amended :
    (∀ (orgs : List Organization) (users : List User)
        (orgName email pass : String) (org : Organization),
      App.findOrg orgs orgName = some org →
      org.isApproved = false →
      org.id ≠ "system_global" →
      App.login orgs users orgName email pass
        = ({ success := false, message := some App.pendingMessage }, none))
    ∧ (∀ (orgs : List Organization) (users : List User)
        (orgName email pass : String) (org : Organization),
      App.findOrg orgs orgName = some org →
      org.id = "system_global" →
      (App.login orgs users orgName email pass).1.message
        ≠ some App.pendingMessage)
    ∧ (∀ (orgs : List Organization) (users : List User)
        (orgName email pass : String) (org : Organization),
      App.isSuperCreds (trimStr email) (trimStr pass) = false →
      App.findOrg orgs orgName = some org →
      org.isApproved = false →
      App.loginPart002 orgs users orgName email pass
        = ({ success := false, message := some App.pendingMessage }, none))
    ∧ (∀ (orgs : List Organization) (users : List User)
        (orgName email pass : String),
      App.isSuperCreds (trimStr email) (trimStr pass) = true →
      (App.loginPart002 orgs users orgName email pass).1.success = true
      ∧ (App.loginPart002 orgs users orgName email pass).2 ≠ none) := by
  refine ⟨?_, ?_, ?_, ?_⟩
  · intro orgs users orgName email pass org hfind happ hid
    unfold App.login
    rw [hfind]
    dsimp only
    rw [if_pos ⟨by simp [happ], hid⟩]
  · intro orgs users orgName email pass org hfind hid
    unfold App.login
    rw [hfind]
    dsimp only
    rw [if_neg (fun hc => hc.2 hid)]
    cases hfound : users.find? (fun u =>
        u.organizationId == org.id && u.email == trimStr email &&
        u.password == some (trimStr pass)) with
    | none =>
      simp [App.pendingMessage]
    | some found =>
      by_cases happr : found.isApproved = true <;>
        simp [happr, App.pendingMessage]
  · intro orgs users orgName email pass org hcreds hfind happ
    unfold App.loginPart002
    dsimp only
    rw [hcreds]
    simp only [Bool.false_eq_true, if_false]
    rw [hfind]
    dsimp only
    rw [if_pos (by simp [happ])]
  · intro orgs users orgName email pass hcreds
    unfold App.loginPart002
    dsimp only
    rw [hcreds]
    simp

/-- C7 witness: the amended statement evaluated concretely — the
part_000 login rejects a user of the unapproved `orgAcme` as pending;
the part_002 login rejects non-backdoor credentials against the
unapproved `orgBeta` as pending; and the part_002 backdoor credentials
establish a session. -/
theorem C7_witness :
    App.login [orgAcme] [userAlice] "Acme" "alice@acme.example" "pw"
      = ({ success := false, message := some App.pendingMessage }, none)
    ∧ App.loginPart002 [orgBeta] [userAlice] "Beta" "alice@acme.example" "pw"
      = ({ success := false, message := some App.pendingMessage }, none)
    ∧ (App.loginPart002 [orgBeta] [backdoorUser] "Beta"
        "keerthithiruvarasan@gmail.com" "123456789@Asdf").1.success = true :=
  ⟨C7_pending_approval_amended.1 [orgAcme] [userAlice] "Acme"
      "alice@acme.example" "pw" orgAcme (by decide) rfl (by decide),
   C7_pending_approval_amended.2.2.1 [orgBeta] [userAlice] "Beta"
      "alice@acme.example" "pw" orgBeta (by decide) (by decide) rfl,
   (C7_pending_approval_amended.2.2.2 [orgBeta] [backdoorUser] "Beta"
      "keerthithiruvarasan@gmail.com" "123456789@Asdf" (by decide)).1⟩

/-! ## C8 -/

/-- C8 counterexample: an inbox fetch invoked before the consent flow
completed (no bearer token) does not surface an explicit
not-authenticated error — it silently returns the empty batch. -/
theorem C8_counterexample :
    MailService.fetchLatestData some
      { gapiInited := true, accessToken := none } true ["junk"]
      = Except.ok [] := rfl

/-- C8: amended authentication-error behavior: a broadcast before the
consent flow completed surfaces the explicit `Not Authenticated` error
(and never retries the flow), while the inbox fetch silently returns
the empty batch when the client is uninitialized or no token is
held. -/
theorem C8_auth_errors_amended :
    (∀ (enc : String → String) (st : MailService.MailState)
        (packet : MailService.SyncPacket) (user : User),
      st.accessToken = none →
      MailService.broadcastData enc st packet user = .error "Not Authenticated")
    ∧ (∀ (dec : String → Option String) (st : MailService.MailState)
        (listOk : Bool) (bodies : List String),
      st.gapiInited = false ∨ st.accessToken = none →
      MailService.fetchLatestData dec st listOk bodies = .ok []) := by
  constructor
  · intro enc st packet user h
    unfold MailService.broadcastData
    rw [h]
  · intro dec st listOk bodies h
    unfold MailService.fetchLatestData
    rcases h with h | h <;> simp [h]

/-- C8 witness: the amended behavior at a concrete unauthenticated
state. -/
theorem C8_witness :
    MailService.broadcastData id { gapiInited := true, accessToken := none }
        samplePacket userAlice = .error "Not Authenticated"
    ∧ MailService.fetchLatestData some
        { gapiInited := true, accessToken := none } true ["junk"] = .ok [] :=
  ⟨C8_auth_errors_amended.1 id _ samplePacket userAlice rfl,
   C8_auth_errors_amended.2 some _ true ["junk"] (Or.inr rfl)⟩

/-! ## C9 -/

/-- C9: once the deregistration handle returned by `subscribe` has
been invoked, the observer's callback is never invoked again by any
subsequent sequence of events that does not re-subscribe that same
callback (mutation notifications, snapshot notifications, other
subscriptions and deregistrations included). -/
theorem C9_unsubscribe_stops_callbacks :
    ∀ (cb : OnlineDb.Callback) (s : OnlineDb.NotifierState)
      (ops : List OnlineDb.NotifierOp),
      (∀ op ∈ ops, op ≠ OnlineDb.NotifierOp.subscribeOp cb) →
      cb ∉ (OnlineDb.runNotifier ops (OnlineDb.unsubscribe cb s)).2 := by
  intro cb s ops hops
  have h0 : cb ∉ (OnlineDb.unsubscribe cb s).subscribers := by
    simp [OnlineDb.unsubscribe, List.mem_filter]
  exact (notifier_no_calls cb ops _ h0 hops).1

/-- C9 witness: callback `1` deregisters while callbacks `0` and `2`
stay active through further mutations and snapshot replacements; `1`
is never invoked afterwards. -/
theorem C9_witness :
    (1 : OnlineDb.Callback) ∉
      (OnlineDb.runNotifier
        [.mutateNotify, .subscribeOp 2, .snapshotNotify, .unsubscribeOp 0,
          .mutateNotify]
        (OnlineDb.unsubscribe 1 { subscribers := [0, 1] })).2 :=
  C9_unsubscribe_stops_callbacks 1 { subscribers := [0, 1] }
    [.mutateNotify, .subscribeOp 2, .snapshotNotify, .unsubscribeOp 0,
      .mutateNotify] (by decide)

/-! ## C10 -/

/-- A cloud-loaded super-admin user whose approval flag is false. -/
def unapprovedSuper : User :=
  { id := "u2", email := MockDb.superEmail, name := "K", password := some "pw"
    role := .SUPER_ADMIN, organizationId := "o1", organizationName := "Acme"
    isApproved := false }

/-- A cloud snapshot carrying only the unapproved super admin. -/
def cloudWithUnapprovedSuper : AppData :=
  { organizations := [], users := [unapprovedSuper], customers := [], plans := [] }

/-- An uninitialized service state. -/
def freshState : MockDb.DbState := { data := INITIAL_DATA }

/-- C10 counterexample: after a successful cloud sync that loaded an
*unapproved* user with the hard-coded super-admin email and role, the
existence check of `ensureSuperAdmin` passes (approval is not
inspected), nothing is inserted, and the users collection contains no
approved `SUPER_ADMIN` — refuting the claim's "at least one approved
user with role SUPER_ADMIN". -/
theorem C10_counterexample :
    (MockDb.init true (some cloudWithUnapprovedSuper) none freshState).data.users
      = [unapprovedSuper]
    ∧ (MockDb.init true (some cloudWithUnapprovedSuper) none
        freshState).data.users.all
        (fun u => !(u.isApproved && u.role == UserRole.SUPER_ADMIN)) = true :=
  ⟨by decide, by decide⟩

/-- C10: amended bootstrap invariant: after `init()` on every path
(missing config, successful cloud load, failed cloud load; any device
snapshot), the users collection contains at least one user carrying one
of the two hard-coded super-admin emails with role `SUPER_ADMIN`; when
the loaded collection has no such user, the approved bootstrap record
with the hard-coded email and password is appended.  Approval of a
loaded match is not checked. -/
theorem C10_super_admin_amended :
    (∀ (configPresent : Bool) (cloud stLocal : Option AppData)
        (s : MockDb.DbState),
      s.initialized = false →
      ∃ u ∈ (MockDb.init configPresent cloud stLocal s).data.users,
        (u.email = MockDb.superEmail ∨ u.email = MockDb.altEmail) ∧
          u.role = UserRole.SUPER_ADMIN)
    ∧ (∀ users : List User, MockDb.hasSuperAdmin users = false →
        MockDb.ensureSuperAdmin users = users ++ [MockDb.bootstrapSuperAdmin])
    ∧ MockDb.bootstrapSuperAdmin.isApproved = true
    ∧ MockDb.bootstrapSuperAdmin.email = MockDb.superEmail
    ∧ MockDb.bootstrapSuperAdmin.password = some "123456789@Asdf" := by
  refine ⟨?_, ?_, rfl, rfl, rfl⟩
  · intro configPresent cloud stLocal s hinit
    simp only [MockDb.init, hinit, Bool.false_eq_true, if_false]
    exact ensureSuperAdmin_exists _
  · intro users h
    simp [MockDb.ensureSuperAdmin, h]

/-- C10 witness: the amended invariant evaluated on a missing-config
startup from an empty device snapshot and on an empty loaded user
collection. -/
theorem C10_witness :
    (∃ u ∈ (MockDb.init false none none freshState).data.users,
      (u.email = MockDb.superEmail ∨ u.email = MockDb.altEmail) ∧
        u.role = UserRole.SUPER_ADMIN)
    ∧ MockDb.ensureSuperAdmin [] = [MockDb.bootstrapSuperAdmin] :=
  ⟨C10_super_admin_amended.1 false none none freshState rfl,
   C10_super_admin_amended.2.1 [] (by decide)⟩
